import Mathlib

/-
  A verification development for the bowl VM runtime core (bowl-project/bowl-api).

  The repository ships the public headers of the runtime: the value layout
  (`struct bowl_value`), the stack-frame layout (`struct bowl_stack_frame`),
  the helper macros (`BOWL_STACK_POP_VALUE`, `BOWL_ASSERT_TYPE`,
  `BOWL_ALLOCATE_STACK_FRAME`, `BOWL_EMPTY_STACK_FRAME`) and the declarations
  of the runtime entry points (`bowl_allocate`, `bowl_value_hash`,
  `bowl_value_equals`, `bowl_map_put`, `bowl_map_get_or_else`,
  `bowl_map_delete`, `bowl_list`, `bowl_list_reverse`, ...).

  Macros and data layouts are embedded directly from the header source.
  Function bodies are not part of the repository surface; those operations
  are modelled from the specification text, and every such definition is
  marked `Modelled from the spec:` in its doc comment.
-/

namespace Bowl

/-- The modulus of 64-bit unsigned arithmetic: every hash computation in the
heap model is truncated to 64 bits, matching the `u64 hash` header field. -/
def U64 : Nat := 18446744073709551616

/-- Modelled from the spec: the body of the hash combinator is not in the
repository headers.  The spec asks for an FNV-1a style combination, so two
64-bit words are mixed by multiplying with the FNV prime and adding, truncated
to 64 bits.  The multiplier is odd, so `mix2` is injective in its first
argument for a fixed second argument. -/
def mix2 (a b : Nat) : Nat := (a * 1099511628211 + b) % U64

/-- Modelled from the spec: FNV-1a over a byte sequence (Symbol/String
payload hashing). -/
def fnv (bytes : List Nat) : Nat :=
  bytes.foldl (fun h b => ((h ^^^ b) * 1099511628211) % U64) 14695981039346656037

/-- The canonical quiet-NaN bit pattern (0x7FF8000000000000). -/
def nanCanonical : Nat := 9221120237041090560

/-- Modelled from the spec: the canonical bit pattern of an IEEE 754 double.
A NaN (exponent field all ones, non-zero mantissa) is canonicalised to the
quiet-NaN pattern and `-0` (sign bit only) is treated as `+0`, so that hashing
and equality agree on those values. -/
def canonBits (bits : Nat) : Nat :=
  if (bits / 4503599627370496) % 2048 = 2047 ∧ bits % 4503599627370496 ≠ 0 then
    nanCanonical
  else if bits = 9223372036854775808 then 0
  else bits

/-- The shallow embedding of a `BowlValue` reference.  A reference in the C
API is a (possibly `NULL`) pointer to a `struct bowl_value` cell; the empty
list is always the `NULL` reference, so the model folds the null reference
into the value type as the constructor `nil`.

Per variant (mirroring the union in `struct bowl_value`):
* `symbol`/`string`: the byte payload (`u64 length` is the list length);
* `number`: the 64 bits of the IEEE 754 double;
* `boolean`: the flag;
* `cons`: a non-empty list cell with its stored `length` field, `head` and
  `tail` references;
* `map`: the buckets (`u64 capacity` is the number of buckets; each bucket is
  the alternating key/value list of the C cell, modelled as a list of pairs;
  `u64 length` is the total number of pairs);
* `function`: the identity of the owning library cell (0 for `NULL`) and the
  native function pointer, both modelled as machine words since the spec hashes
  and compares them by pointer identity;
* `library`: the native handle (pointer identity) and the name bytes;
* `vector`: the element references;
* `exception`: the `cause` reference (`nil` models `NULL`) and the `message`
  reference. -/
inductive Value : Type where
  | nil
  | symbol (bytes : List Nat)
  | string (bytes : List Nat)
  | number (bits : Nat)
  | boolean (b : Bool)
  | cons (length : Nat) (head tail : Value)
  | map (buckets : List (List (Value × Value)))
  | function (libHandle ptr : Nat)
  | library (handle : Nat) (name : List Nat)
  | vector (elements : List Value)
  | exception (cause message : Value)

/-- The flattened entry list of a map cell: all key/value pairs in bucket
order.  The map's `length` header field equals the length of this list. -/
def mapEntries (buckets : List (List (Value × Value))) : List (Value × Value) :=
  buckets.flatten

mutual

/-- Modelled from the spec: the content hash computed by `bowl_value_hash`
(the function body is not in the repository headers).  The numeric tags are
the `BowlValueType` enumerator values from the header.  Symbols and strings
hash their bytes with FNV-1a; numbers hash the canonical bit pattern;
booleans are 0/1 at a fixed offset; lists and vectors are order-sensitive
folds of child hashes; maps are an order-insensitive sum of
`mix2 (hash key) (hash value)` over all entries, so equal maps hash equally
regardless of bucket layout; functions and libraries hash their identity
(pointer bits); exceptions fold the cause and message hashes.  The `NULL`
reference (empty list) hashes to the list fold seed. -/
def bowl_value_hash : Value → Nat
  | .nil => 5381
  | .symbol bytes => mix2 0 (fnv bytes)
  | .string bytes => mix2 6 (fnv bytes)
  | .number bits => mix2 5 (canonBits bits)
  | .boolean b => mix2 4 (if b then 1 else 0)
  | .cons _ h t => mix2 1 (mix2 (bowl_value_hash h) (bowl_value_hash t))
  | .map buckets => mix2 3 (hashBuckets buckets % U64)
  | .function libHandle ptr => mix2 2 (mix2 libHandle ptr)
  | .library handle _ => mix2 7 handle
  | .vector elements => mix2 8 (hashElems elements)
  | .exception c m => mix2 9 (mix2 (bowl_value_hash c) (bowl_value_hash m))

/-- The (untruncated) sum of entry hashes over a bucket array. -/
def hashBuckets : List (List (Value × Value)) → Nat
  | [] => 0
  | b :: rest => hashBucket b + hashBuckets rest

/-- The (untruncated) sum of `mix2 (hash key) (hash value)` over one bucket. -/
def hashBucket : List (Value × Value) → Nat
  | [] => 0
  | (k, v) :: rest => mix2 (bowl_value_hash k) (bowl_value_hash v) + hashBucket rest

/-- Order-sensitive fold of the element hashes of a vector. -/
def hashElems : List Value → Nat
  | [] => 77
  | e :: rest => mix2 (bowl_value_hash e) (hashElems rest)

end

mutual

/-- Structural identity of two references.  In the C runtime two references
are identical when they are the same pointer; in the shallow embedding cells
are pure trees, so pointer identity is modelled by syntactic equality of the
trees (the same cell is always modelled by the same tree).  `bowl_value_equals`
short-circuits on this test. -/
def ident : Value → Value → Bool
  | .nil, .nil => true
  | .symbol a, .symbol b => a == b
  | .string a, .string b => a == b
  | .number a, .number b => a == b
  | .boolean a, .boolean b => a == b
  | .cons l1 h1 t1, .cons l2 h2 t2 => l1 == l2 && ident h1 h2 && ident t1 t2
  | .map bs1, .map bs2 => identBuckets bs1 bs2
  | .function l1 p1, .function l2 p2 => l1 == l2 && p1 == p2
  | .library h1 n1, .library h2 n2 => h1 == h2 && n1 == n2
  | .vector e1, .vector e2 => identList e1 e2
  | .exception c1 m1, .exception c2 m2 => ident c1 c2 && ident m1 m2
  | _, _ => false

/-- Structural identity of bucket arrays. -/
def identBuckets : List (List (Value × Value)) → List (List (Value × Value)) → Bool
  | [], [] => true
  | b1 :: r1, b2 :: r2 => identBucket b1 b2 && identBuckets r1 r2
  | _, _ => false

/-- Structural identity of single buckets. -/
def identBucket : List (Value × Value) → List (Value × Value) → Bool
  | [], [] => true
  | (k1, v1) :: r1, (k2, v2) :: r2 => ident k1 k2 && ident v1 v2 && identBucket r1 r2
  | _, _ => false

/-- Structural identity of element lists. -/
def identList : List Value → List Value → Bool
  | [], [] => true
  | e1 :: r1, e2 :: r2 => ident e1 e2 && identList r1 r2
  | _, _ => false

end

/-- The bucket a key is looked up in: `hash(key) mod capacity`, where the
capacity is the number of buckets.  Out-of-range indices (only possible for a
map with zero buckets, which the spec rules out) yield the empty bucket. -/
def bucketFor (buckets : List (List (Value × Value))) (k : Value) :
    List (Value × Value) :=
  buckets.getD (bowl_value_hash k % buckets.length) []

theorem one_le_sizeOf_list {α : Type} [SizeOf α] (l : List α) : 1 ≤ sizeOf l := by
  cases l with
  | nil => simp
  | cons a t => simp only [List.cons.sizeOf_spec]; omega

theorem sizeOf_flatten_le {α : Type} [SizeOf α] (l : List (List α)) :
    sizeOf l.flatten ≤ sizeOf l := by
  induction l with
  | nil => simp
  | cons b rest ih =>
    simp only [List.flatten_cons]
    have happ : ∀ (xs ys : List α), sizeOf (xs ++ ys) = sizeOf xs + sizeOf ys - 1 := by
      intro xs ys
      induction xs with
      | nil => simp
      | cons x xs ihx =>
        simp only [List.cons_append, List.cons.sizeOf_spec, ihx]
        have := one_le_sizeOf_list ys
        omega
    have h1 := one_le_sizeOf_list b
    simp only [List.cons.sizeOf_spec]
    rw [happ]
    omega

theorem sizeOf_getD_le (l : List (List (Value × Value))) (i : Nat) :
    sizeOf (l.getD i []) ≤ sizeOf l := by
  rcases h : l.getD i [] with _ | _
  · have := one_le_sizeOf_list l
    simp only [List.nil.sizeOf_spec]
    omega
  · have hmem : l.getD i [] ∈ l := by
      rcases lt_or_ge i l.length with hlt | hge
      · rw [List.getD_eq_getElem _ _ hlt]
        exact List.getElem_mem hlt
      · rw [List.getD_eq_default _ _ hge] at h
        exact absurd h (by simp)
    rw [h] at hmem
    have := List.sizeOf_lt_of_mem hmem
    omega

theorem one_le_sizeOf_value (v : Value) : 1 ≤ sizeOf v := by
  cases v <;> simp_arith

mutual

/-- Modelled from the spec: `bowl_value_equals` (the function body is not in
the repository headers).  It short-circuits on pointer equality (modelled by
`ident`) and on type mismatch (the catch-all `false` case of
`structuralEquals`), and otherwise recurses structurally.  Maps compare as
sets of entries (subset both ways), NaN equals NaN and `-0` equals `+0`
(canonical bit patterns). -/
def bowl_value_equals (a b : Value) : Bool :=
  ident a b || structuralEquals a b
termination_by sizeOf a + sizeOf b + 2

/-- The structural part of `bowl_value_equals`, one case per variant pair. -/
def structuralEquals : Value → Value → Bool
  | .nil, .nil => true
  | .symbol a, .symbol b => a == b
  | .string a, .string b => a == b
  | .number a, .number b => canonBits a == canonBits b
  | .boolean a, .boolean b => a == b
  | .cons _ h1 t1, .cons _ h2 t2 => bowl_value_equals h1 h2 && bowl_value_equals t1 t2
  | .map bs1, .map bs2 => subsetB bs1 bs2 && subsetB bs2 bs1
  | .function l1 p1, .function l2 p2 => l1 == l2 && p1 == p2
  | .library h1 n1, .library h2 n2 => h1 == h2 && n1 == n2
  | .vector e1, .vector e2 => equalsElems e1 e2
  | .exception c1 m1, .exception c2 m2 =>
    bowl_value_equals c1 c2 && bowl_value_equals m1 m2
  | _, _ => false
termination_by a b => sizeOf a + sizeOf b + 1

/-- Modelled from the spec: `bowl_map_subset_of` on bucket arrays.  The
subset's `length` must not exceed the superset's, and every entry of the
subset must be present in the superset (found by bucket lookup, compared with
`bowl_value_equals`). -/
def subsetB (super sub : List (List (Value × Value))) : Bool :=
  decide ((mapEntries sub).length ≤ (mapEntries super).length) &&
    entriesAll super (mapEntries sub)
termination_by sizeOf super + sizeOf sub + 2
decreasing_by
  have h := sizeOf_flatten_le (α := Value × Value) sub
  simp only [mapEntries] at *
  omega

/-- Every entry of the list is present in the bucket array `super`. -/
def entriesAll (super : List (List (Value × Value))) :
    List (Value × Value) → Bool
  | [] => true
  | (k, v) :: rest => findPair (bucketFor super k) k v && entriesAll super rest
termination_by l => sizeOf super + sizeOf l + 1
decreasing_by
  all_goals
    simp only [bucketFor, List.cons.sizeOf_spec, Prod.mk.sizeOf_spec]
  · have h := sizeOf_getD_le super (bowl_value_hash k % super.length)
    omega
  · omega

/-- Scan a bucket for the first pair whose key equals `k`; when found, its
value must equal `v` (the superset binds each key to the first matching pair,
as `bowl_map_get_or_else` does). -/
def findPair : List (Value × Value) → Value → Value → Bool
  | [], _, _ => false
  | (k1, v1) :: rest, k, v =>
    if bowl_value_equals k1 k then bowl_value_equals v1 v else findPair rest k v
termination_by bucket k v => sizeOf bucket + sizeOf k + sizeOf v
decreasing_by
  all_goals
    simp only [List.cons.sizeOf_spec, Prod.mk.sizeOf_spec]
  all_goals
    have hk1 := one_le_sizeOf_value k1
  all_goals
    have hv1 := one_le_sizeOf_value v1
  all_goals
    have hr := one_le_sizeOf_list rest
  all_goals
    omega

/-- Pointwise equality of vector element lists. -/
def equalsElems : List Value → List Value → Bool
  | [], [] => true
  | e1 :: r1, e2 :: r2 => bowl_value_equals e1 e2 && equalsElems r1 r2
  | _, _ => false
termination_by l1 l2 => sizeOf l1 + sizeOf l2 + 1

end

/-! ### Map operations -/

/-- The bucket index of a key: `hash(key) mod capacity`. -/
def bucketIndex (cap : Nat) (k : Value) : Nat := bowl_value_hash k % cap

/-- Scan a bucket for the first pair whose key equals `k` and return its
value; this is the bucket search performed by `bowl_map_get_or_else`. -/
def bucketFind : List (Value × Value) → Value → Option Value
  | [], _ => none
  | (k1, v1) :: rest, k =>
    if bowl_value_equals k1 k then some v1 else bucketFind rest k

/-- Modelled from the spec: `bowl_map_get_or_else(map, key, otherwise)` —
bucket lookup; the associated value of the first pair whose key equals `key`,
or the default. -/
def bowl_map_get_or_else (map k otherwise : Value) : Value :=
  match map with
  | .map buckets =>
    match bucketFind (bucketFor buckets k) k with
    | some v => v
    | none => otherwise
  | _ => otherwise

/-- Rebuild a bucket list with the first pair whose key equals `k` replaced
by the new pair `(k, v)`. -/
def bucketReplace (k v : Value) : List (Value × Value) → List (Value × Value)
  | [] => []
  | (k1, v1) :: rest =>
    if bowl_value_equals k1 k then (k, v) :: rest
    else (k1, v1) :: bucketReplace k v rest

/-- Rebuild a bucket list without the first pair whose key equals `k`. -/
def bucketRemove (k : Value) : List (Value × Value) → List (Value × Value)
  | [] => []
  | (k1, v1) :: rest =>
    if bowl_value_equals k1 k then rest else (k1, v1) :: bucketRemove k rest

/-- The smallest power of two that is at least `n` (and at least 1). -/
def nextPow2 (n : Nat) : Nat :=
  if n ≤ 1 then 1 else 2 * nextPow2 ((n + 1) / 2)
termination_by n
decreasing_by omega

/-- Distribute a flat entry list over `cap` buckets by bucket index,
preserving the relative order of entries; this is the rebuild step of the
map growth policy. -/
def rebuildBuckets (cap : Nat) (entries : List (Value × Value)) :
    List (List (Value × Value)) :=
  (List.range cap).map (fun i => entries.filter (fun e => bucketIndex cap e.1 == i))

/-- The bucket-update step of `bowl_map_put`: locate the bucket; if the key
is present replace that pair, else prepend `(k, v)`; all other buckets are
shared. -/
def putBuckets (buckets : List (List (Value × Value))) (k v : Value) :
    List (List (Value × Value)) :=
  let i := bucketIndex buckets.length k
  let bucket := buckets.getD i []
  if (bucketFind bucket k).isSome then buckets.set i (bucketReplace k v bucket)
  else buckets.set i ((k, v) :: bucket)

/-- Modelled from the spec: `bowl_map_put(stack, map, key, value)` — update
the key's bucket via `putBuckets`; if the resulting load factor exceeds 0.75,
rebuild with capacity the next power of two that is at least `2 * length`.
Allocation is modelled as always succeeding (the allocator is modelled
separately); a non-map argument is returned unchanged. -/
def bowl_map_put (m k v : Value) : Value :=
  match m with
  | .map buckets =>
    let buckets1 := putBuckets buckets k v
    if 4 * (mapEntries buckets1).length > 3 * buckets.length then
      .map (rebuildBuckets (nextPow2 (2 * (mapEntries buckets1).length))
        (mapEntries buckets1))
    else .map buckets1
  | other => other

/-- Modelled from the spec: `bowl_map_delete(stack, map, key)` — the bucket
holding a pair with that key (by `bowl_value_equals`, not identity) is rebuilt
without the pair, capacity unchanged; if the key is absent the input map
reference itself is returned unchanged. -/
def bowl_map_delete (m k : Value) : Value :=
  match m with
  | .map buckets =>
    let i := bucketIndex buckets.length k
    let bucket := buckets.getD i []
    if (bucketFind bucket k).isSome then .map (buckets.set i (bucketRemove k bucket))
    else m
  | other => other

/-- `bowl_value_length` — the `length` field of a string, map, list or symbol
cell (and of a vector); the `NULL` reference is the empty list of length 0. -/
def bowl_value_length (v : Value) : Nat :=
  match v with
  | .nil => 0
  | .cons n _ _ => n
  | .map buckets => (mapEntries buckets).length
  | .symbol bytes => bytes.length
  | .string bytes => bytes.length
  | .vector elements => elements.length
  | _ => 0

/-! ### List operations -/

/-- Modelled from the spec: the list constructor `bowl_list(stack, head,
tail)` — allocates a new cell whose `length` is `1 + (tail ? tail.length :
0)`.  Allocation is modelled as succeeding. -/
def bowl_list (head tail : Value) : Value :=
  .cons (1 + bowl_value_length tail) head tail

/-- The accumulator loop of list reversal: walk the input, pushing each head
onto the accumulator with the `bowl_list` constructor (allocating one new
cell per element). -/
def reverseOnto : Value → Value → Value
  | .cons _ h t, acc => reverseOnto t (bowl_list h acc)
  | _, acc => acc

/-- Modelled from the spec: `bowl_list_reverse(stack, list)` — allocates
`length` new cells, producing the reversed list. -/
def bowl_list_reverse (list : Value) : Value := reverseOnto list .nil

/-- The values of a well-formed list, in order. -/
def toList : Value → List Value
  | .cons _ h t => h :: toList t
  | _ => []

/-- A reference is a well-formed list: either the `NULL` reference (the empty
list) or a chain of cons cells whose stored `length` fields are consistent,
as produced by the `bowl_list` constructor. -/
inductive IsList : Value → Prop where
  | nil : IsList .nil
  | cons (h t : Value) : IsList t → IsList (.cons (1 + bowl_value_length t) h t)

/-! ### The datastack pop and type assertion macros -/

/-- The single-quote character used by the exception format strings. -/
def quoteChar : Char := Char.ofNat 39

/-- `seg` occurs contiguously inside `l` (the message "contains" the name). -/
def SegIn (seg l : List Char) : Prop := ∃ s t, s ++ seg ++ t = l

/-- The message built by `bowl_format_exception(stack, "stack underflow in
function '%s'", __FUNCTION__)` in the `BOWL_STACK_POP_VALUE` macro. -/
def underflowMessage (fname : List Char) : List Char :=
  ("stack underflow in function ".toList) ++ (quoteChar :: (fname ++ [quoteChar]))

/-- The possible outcomes of `BOWL_STACK_POP_VALUE`: either the popped value
is stored into the target variable, or the macro returns a stack-underflow
exception (modelled by its message). -/
inductive PopResult where
  | ok (value : Value)
  | underflow (message : List Char)

/-- The `BOWL_STACK_POP_VALUE(stack, variable)` macro from `api.h`: if
`*stack->datastack` is `NULL` it returns the formatted stack-underflow
exception naming the popping function and does not touch the datastack;
otherwise it stores the head of the datastack list in the target variable and
replaces the datastack with the tail.  The result pairs the outcome with the
datastack slot after the macro ran.  (On a non-`NULL` cell the C macro reads
the `list` member of the union without a type check; the claims only concern
list-shaped datastacks, and the model returns the slot unchanged otherwise.) -/
def BOWL_STACK_POP_VALUE (fname : List Char) (datastack : Value) :
    PopResult × Value :=
  match datastack with
  | .nil => (.underflow (underflowMessage fname), .nil)
  | .cons _ h t => (.ok h, t)
  | v => (.ok .nil, v)

/-- The `BowlValueType` enumeration from the header. -/
inductive BowlValueType where
  | BowlSymbolValue
  | BowlListValue
  | BowlNativeValue
  | BowlMapValue
  | BowlBooleanValue
  | BowlNumberValue
  | BowlStringValue
  | BowlLibraryValue
  | BowlVectorValue
  | BowlExceptionValue
  deriving DecidableEq

/-- The `type` header field of a cell; the `NULL` reference is the empty
list, so its type is the list type. -/
def typeOf : Value → BowlValueType
  | .nil => .BowlListValue
  | .symbol _ => .BowlSymbolValue
  | .string _ => .BowlStringValue
  | .number _ => .BowlNumberValue
  | .boolean _ => .BowlBooleanValue
  | .cons _ _ _ => .BowlListValue
  | .map _ => .BowlMapValue
  | .function _ _ => .BowlNativeValue
  | .library _ _ => .BowlLibraryValue
  | .vector _ => .BowlVectorValue
  | .exception _ _ => .BowlExceptionValue

/-- Modelled from the spec: `bowl_type_name(type)` — the string
representation of a type (the body is not in the repository headers; the
names are the variant names used throughout the spec). -/
def bowl_type_name : BowlValueType → List Char
  | .BowlSymbolValue => "symbol".toList
  | .BowlListValue => "list".toList
  | .BowlNativeValue => "function".toList
  | .BowlMapValue => "map".toList
  | .BowlBooleanValue => "boolean".toList
  | .BowlNumberValue => "number".toList
  | .BowlStringValue => "string".toList
  | .BowlLibraryValue => "library".toList
  | .BowlVectorValue => "vector".toList
  | .BowlExceptionValue => "exception".toList

/-- `bowl_value_type(value)` — the string representation of a value's type;
the `NULL` reference is the empty list. -/
def bowl_value_type (v : Value) : List Char := bowl_type_name (typeOf v)

/-- Whether a reference is the `NULL` pointer. -/
def isNil : Value → Bool
  | .nil => true
  | _ => false

/-- The message built by `bowl_format_exception(stack, "argument of illegal
type '%s' in function '%s' (expected type '%s')", bowl_value_type(value),
__FUNCTION__, bowl_type_name(type))` in the `BOWL_ASSERT_TYPE` macro. -/
def illegalTypeMessage (observed fname expected : List Char) : List Char :=
  ("argument of illegal type ".toList) ++ (quoteChar :: (observed ++ [quoteChar])) ++
    (" in function ".toList) ++ (quoteChar :: (fname ++ [quoteChar])) ++
    (" (expected type ".toList) ++ (quoteChar :: (expected ++ [quoteChar])) ++
    (")".toList)

/-- The `BOWL_ASSERT_TYPE(value, type)` macro from `api.h`: the check fails —
returning the formatted exception (modelled by its message) — exactly when
`value` is `NULL` and `type` is not the list type, or `value` is not `NULL`
and its `type` header field differs from `type`; otherwise the macro falls
through (`none`). -/
def BOWL_ASSERT_TYPE (fname : List Char) (value : Value) (type : BowlValueType) :
    Option (List Char) :=
  if (isNil value && type != BowlValueType.BowlListValue) ||
      (!isNil value && typeOf value != type) then
    some (illegalTypeMessage (bowl_value_type value) fname (bowl_type_name type))
  else none

/-! ### Stack frames -/

/-- The `struct bowl_stack_frame` layout: the predecessor pointer, three
general-purpose registers, and the three aliased root slots.  Pointers to
frames and to slots are modelled as addresses (`none` models `NULL`);
register contents are value references. -/
structure BowlStackFrame where
  previous : Option Nat
  registers : Value × Value × Value
  dictionary : Option Nat
  callstack : Option Nat
  datastack : Option Nat

/-- The designated initializer `BOWL_ALLOCATE_STACK_FRAME(stack, a, b, c)`
from the header: `.previous = stack`, `.registers = {a, b, c}`, and the
`dictionary`, `callstack` and `datastack` pointers are read *through*
`stack`.  The argument is modelled as the address of the predecessor frame
together with the frame it points to; passing `NULL` (`none`) makes the three
reads `(stack)->dictionary`, `(stack)->callstack`, `(stack)->datastack`
dereference a null pointer, which has no defined result — modelled as
`none`. -/
def BOWL_ALLOCATE_STACK_FRAME (stack : Option (Nat × BowlStackFrame))
    (a b c : Value) : Option BowlStackFrame :=
  match stack with
  | none => none
  | some (addr, frame) =>
    some { previous := some addr
           registers := (a, b, c)
           dictionary := frame.dictionary
           callstack := frame.callstack
           datastack := frame.datastack }

/-- The designated initializer `BOWL_EMPTY_STACK_FRAME(stack)` from the
header: `.previous = stack`, registers `NULL`, and all three root slots
`NULL`.  The predecessor is only stored, never dereferenced, so `NULL`
(`none`) is a legal argument and the result is always a defined frame. -/
def BOWL_EMPTY_STACK_FRAME (stack : Option Nat) : BowlStackFrame :=
  { previous := stack
    registers := (.nil, .nil, .nil)
    dictionary := none
    callstack := none
    datastack := none }

/-! ### The allocator -/

/-- The bump-allocator state of the `from_space`: its byte capacity and the
number of bytes already allocated (the bump pointer as an offset). -/
structure Heap where
  capacity : Nat
  used : Nat

/-- The outcome of `bowl_allocate`: either the offset of the freshly
allocated cell, or a failure carrying an exception value. -/
inductive AllocResult where
  | success (addr : Nat)
  | failure (exc : Value)

/-- The preallocated out-of-heap singleton (`bowl_exception_out_of_heap` in
the header): a string exception created once at boot and never collected. -/
def bowl_exception_out_of_heap : Value :=
  .exception .nil (.string (("out of heap".toList).map Char.toNat))

/-- The preallocated sentinel singleton (`bowl_sentinel_value` in the
header), used by callers of `bowl_map_get_or_else` to detect absence. -/
def bowl_sentinel_value : Value :=
  .symbol (("sentinel".toList).map Char.toNat)

/-- The size of the value header (`type`, `location`, `hash`). -/
def headerSize : Nat := 24

/-- Modelled from the spec: the fixed per-variant field sizes of
`struct bowl_value` (cell size = header + fixed variant fields + additional
bytes). -/
def variantSize : BowlValueType → Nat
  | .BowlSymbolValue => 8
  | .BowlListValue => 24
  | .BowlNativeValue => 16
  | .BowlMapValue => 16
  | .BowlBooleanValue => 1
  | .BowlNumberValue => 8
  | .BowlStringValue => 8
  | .BowlLibraryValue => 16
  | .BowlVectorValue => 8
  | .BowlExceptionValue => 16

/-- Modelled from the spec: `bowl_allocate(stack, type, additional)` — bump
the pointer in `from_space` if the request fits; otherwise invoke the
collector (a state transformer `gc`, abstracting §4.3) and retry the request
exactly once; if the retry also fails, return a failure carrying the
preallocated `bowl_exception_out_of_heap` singleton without allocating
anything (the heap state stays exactly as the collection left it). -/
def bowl_allocate (gc : Heap → Heap) (h : Heap) (type : BowlValueType)
    (additional : Nat) : Heap × AllocResult :=
  let size := headerSize + variantSize type + additional
  if h.used + size ≤ h.capacity then
    ({ h with used := h.used + size }, .success h.used)
  else
    let h1 := gc h
    if h1.used + size ≤ h1.capacity then
      ({ h1 with used := h1.used + size }, .success h1.used)
    else (h1, .failure bowl_exception_out_of_heap)

/-- Modelled from the spec: the lazy, caching `bowl_value_hash` entry point.
The first component of the state is the cell's `hash` header field (0 means
"not yet computed").  If the cached hash is non-zero it is returned as-is;
otherwise the content hash is computed and stored, with a computed 0 re-keyed
to 1 before storing.  The result pairs the returned hash with the `hash`
field after the call. -/
def bowl_value_hash_cached (cache : Nat) (v : Value) : Nat × Nat :=
  if cache ≠ 0 then (cache, cache)
  else
    let h := bowl_value_hash v
    let h1 := if h = 0 then 1 else h
    (h1, h1)

/-! ### Well-formedness -/

/-- The keys of an entry list are pairwise distinct under
`bowl_value_equals`. -/
def KeysPairwiseDistinct (entries : List (Value × Value)) : Prop :=
  entries.Pairwise (fun e1 e2 => bowl_value_equals e1.1 e2.1 = false)

/-- Every map cell inside the value has pairwise-distinct keys (the spec
invariant that a map's `length` counts its pairs, i.e. `bowl_map_put` never
created a duplicate binding). -/
inductive NoDupMaps : Value → Prop where
  | nil : NoDupMaps .nil
  | symbol (bytes : List Nat) : NoDupMaps (.symbol bytes)
  | string (bytes : List Nat) : NoDupMaps (.string bytes)
  | number (bits : Nat) : NoDupMaps (.number bits)
  | boolean (b : Bool) : NoDupMaps (.boolean b)
  | cons (n : Nat) (h t : Value) :
      NoDupMaps h → NoDupMaps t → NoDupMaps (.cons n h t)
  | map (buckets : List (List (Value × Value))) :
      (∀ e ∈ mapEntries buckets, NoDupMaps e.1) →
      (∀ e ∈ mapEntries buckets, NoDupMaps e.2) →
      KeysPairwiseDistinct (mapEntries buckets) →
      NoDupMaps (.map buckets)
  | function (l p : Nat) : NoDupMaps (.function l p)
  | library (h : Nat) (n : List Nat) : NoDupMaps (.library h n)
  | vector (elements : List Value) :
      (∀ e ∈ elements, NoDupMaps e) → NoDupMaps (.vector elements)
  | exception (c m : Value) :
      NoDupMaps c → NoDupMaps m → NoDupMaps (.exception c m)

/-- Every map cell inside the value is fully well-formed: it has at least one
bucket, every entry lies in the bucket its key hashes to, and keys are
pairwise distinct.  These are the §3.2 invariants of maps built by the map
constructors. -/
inductive WFValue : Value → Prop where
  | nil : WFValue .nil
  | symbol (bytes : List Nat) : WFValue (.symbol bytes)
  | string (bytes : List Nat) : WFValue (.string bytes)
  | number (bits : Nat) : WFValue (.number bits)
  | boolean (b : Bool) : WFValue (.boolean b)
  | cons (n : Nat) (h t : Value) :
      WFValue h → WFValue t → WFValue (.cons n h t)
  | map (buckets : List (List (Value × Value))) :
      buckets ≠ [] →
      (∀ i < buckets.length, ∀ e ∈ buckets.getD i [],
        bucketIndex buckets.length e.1 = i) →
      (∀ e ∈ mapEntries buckets, WFValue e.1) →
      (∀ e ∈ mapEntries buckets, WFValue e.2) →
      KeysPairwiseDistinct (mapEntries buckets) →
      WFValue (.map buckets)
  | function (l p : Nat) : WFValue (.function l p)
  | library (h : Nat) (n : List Nat) : WFValue (.library h n)
  | vector (elements : List Value) :
      (∀ e ∈ elements, WFValue e) → WFValue (.vector elements)
  | exception (c m : Value) :
      WFValue c → WFValue m → WFValue (.exception c m)

/-! ### Identity: reflexivity and soundness -/

theorem identRefl_all : ∀ n : Nat,
    (∀ a : Value, sizeOf a ≤ n → ident a a = true) ∧
    (∀ bs : List (List (Value × Value)), sizeOf bs ≤ n → identBuckets bs bs = true) ∧
    (∀ bk : List (Value × Value), sizeOf bk ≤ n → identBucket bk bk = true) ∧
    (∀ l : List Value, sizeOf l ≤ n → identList l l = true) := by
  intro n
  induction n using Nat.strong_induction_on with
  | _ n IH =>
    have useVal : ∀ a : Value, sizeOf a < n → ident a a = true := fun a ha =>
      (IH (sizeOf a) ha).1 a le_rfl
    have useBuckets : ∀ bs : List (List (Value × Value)), sizeOf bs < n →
        identBuckets bs bs = true := fun bs h => (IH (sizeOf bs) h).2.1 bs le_rfl
    have useBucket : ∀ bk : List (Value × Value), sizeOf bk < n →
        identBucket bk bk = true := fun bk h => (IH (sizeOf bk) h).2.2.1 bk le_rfl
    have useList : ∀ l : List Value, sizeOf l < n → identList l l = true :=
      fun l h => (IH (sizeOf l) h).2.2.2 l le_rfl
    refine ⟨?_, ?_, ?_, ?_⟩
    · intro a ha
      match a with
      | .nil => simp [ident]
      | .symbol bytes => simp [ident]
      | .string bytes => simp [ident]
      | .number bits => simp [ident]
      | .boolean b => simp [ident]
      | .cons l h t =>
        have hs : sizeOf h < n ∧ sizeOf t < n := by simp at ha; omega
        simp [ident, useVal h hs.1, useVal t hs.2]
      | .map bs =>
        have hs : sizeOf bs < n := by simp at ha; omega
        simp [ident, useBuckets bs hs]
      | .function l p => simp [ident]
      | .library h nm => simp [ident]
      | .vector es =>
        have hs : sizeOf es < n := by simp at ha; omega
        simp [ident, useList es hs]
      | .exception c m =>
        have hs : sizeOf c < n ∧ sizeOf m < n := by simp at ha; omega
        simp [ident, useVal c hs.1, useVal m hs.2]
    · intro bs hbs
      match bs with
      | [] => simp [identBuckets]
      | b :: rest =>
        have hs : sizeOf b < n ∧ sizeOf rest < n := by simp at hbs; omega
        simp [identBuckets, useBucket b hs.1, useBuckets rest hs.2]
    · intro bk hbk
      match bk with
      | [] => simp [identBucket]
      | (k, v) :: rest =>
        have hs : sizeOf k < n ∧ sizeOf v < n ∧ sizeOf rest < n := by
          simp at hbk; omega
        simp [identBucket, useVal k hs.1, useVal v hs.2.1, useBucket rest hs.2.2]
    · intro l hl
      match l with
      | [] => simp [identList]
      | e :: rest =>
        have hs : sizeOf e < n ∧ sizeOf rest < n := by simp at hl; omega
        simp [identList, useVal e hs.1, useList rest hs.2]

theorem ident_refl (a : Value) : ident a a = true :=
  (identRefl_all (sizeOf a)).1 a le_rfl

theorem identSound_all : ∀ n : Nat,
    (∀ a b : Value, sizeOf a ≤ n → ident a b = true → a = b) ∧
    (∀ bs1 bs2 : List (List (Value × Value)), sizeOf bs1 ≤ n →
      identBuckets bs1 bs2 = true → bs1 = bs2) ∧
    (∀ bk1 bk2 : List (Value × Value), sizeOf bk1 ≤ n →
      identBucket bk1 bk2 = true → bk1 = bk2) ∧
    (∀ l1 l2 : List Value, sizeOf l1 ≤ n → identList l1 l2 = true → l1 = l2) := by
  intro n
  induction n using Nat.strong_induction_on with
  | _ n IH =>
    have useVal : ∀ a b : Value, sizeOf a < n → ident a b = true → a = b :=
      fun a b ha h => (IH (sizeOf a) ha).1 a b le_rfl h
    have useBuckets : ∀ bs1 bs2, sizeOf bs1 < n → identBuckets bs1 bs2 = true →
        bs1 = bs2 := fun bs1 bs2 h hid => (IH (sizeOf bs1) h).2.1 bs1 bs2 le_rfl hid
    have useBucket : ∀ bk1 bk2, sizeOf bk1 < n → identBucket bk1 bk2 = true →
        bk1 = bk2 := fun bk1 bk2 h hid => (IH (sizeOf bk1) h).2.2.1 bk1 bk2 le_rfl hid
    have useList : ∀ l1 l2, sizeOf l1 < n → identList l1 l2 = true → l1 = l2 :=
      fun l1 l2 h hid => (IH (sizeOf l1) h).2.2.2 l1 l2 le_rfl hid
    refine ⟨?_, ?_, ?_, ?_⟩
    · intro a b ha hid
      match a, b with
      | .nil, .nil => rfl
      | .symbol x, .symbol y => simp [ident] at hid; simp [hid]
      | .string x, .string y => simp [ident] at hid; simp [hid]
      | .number x, .number y => simp [ident] at hid; simp [hid]
      | .boolean x, .boolean y => simp [ident] at hid; simp [hid]
      | .cons l1 h1 t1, .cons l2 h2 t2 =>
        simp [ident] at hid
        have hs : sizeOf h1 < n ∧ sizeOf t1 < n := by simp at ha; omega
        exact by
          rw [hid.1.1, useVal h1 h2 hs.1 hid.1.2, useVal t1 t2 hs.2 hid.2]
      | .map bs1, .map bs2 =>
        have hs : sizeOf bs1 < n := by simp at ha; omega
        rw [useBuckets bs1 bs2 hs (by simpa [ident] using hid)]
      | .function l1 p1, .function l2 p2 => simp [ident] at hid; simp [hid]
      | .library h1 n1, .library h2 n2 => simp [ident] at hid; simp [hid]
      | .vector e1, .vector e2 =>
        have hs : sizeOf e1 < n := by simp at ha; omega
        rw [useList e1 e2 hs (by simpa [ident] using hid)]
      | .exception c1 m1, .exception c2 m2 =>
        simp [ident] at hid
        have hs : sizeOf c1 < n ∧ sizeOf m1 < n := by simp at ha; omega
        rw [useVal c1 c2 hs.1 hid.1, useVal m1 m2 hs.2 hid.2]
      | .nil, .symbol _ => simp [ident] at hid
      | .nil, .string _ => simp [ident] at hid
      | .nil, .number _ => simp [ident] at hid
      | .nil, .boolean _ => simp [ident] at hid
      | .nil, .cons _ _ _ => simp [ident] at hid
      | .nil, .map _ => simp [ident] at hid
      | .nil, .function _ _ => simp [ident] at hid
      | .nil, .library _ _ => simp [ident] at hid
      | .nil, .vector _ => simp [ident] at hid
      | .nil, .exception _ _ => simp [ident] at hid
      | .symbol _, .nil => simp [ident] at hid
      | .symbol _, .string _ => simp [ident] at hid
      | .symbol _, .number _ => simp [ident] at hid
      | .symbol _, .boolean _ => simp [ident] at hid
      | .symbol _, .cons _ _ _ => simp [ident] at hid
      | .symbol _, .map _ => simp [ident] at hid
      | .symbol _, .function _ _ => simp [ident] at hid
      | .symbol _, .library _ _ => simp [ident] at hid
      | .symbol _, .vector _ => simp [ident] at hid
      | .symbol _, .exception _ _ => simp [ident] at hid
      | .string _, .nil => simp [ident] at hid
      | .string _, .symbol _ => simp [ident] at hid
      | .string _, .number _ => simp [ident] at hid
      | .string _, .boolean _ => simp [ident] at hid
      | .string _, .cons _ _ _ => simp [ident] at hid
      | .string _, .map _ => simp [ident] at hid
      | .string _, .function _ _ => simp [ident] at hid
      | .string _, .library _ _ => simp [ident] at hid
      | .string _, .vector _ => simp [ident] at hid
      | .string _, .exception _ _ => simp [ident] at hid
      | .number _, .nil => simp [ident] at hid
      | .number _, .symbol _ => simp [ident] at hid
      | .number _, .string _ => simp [ident] at hid
      | .number _, .boolean _ => simp [ident] at hid
      | .number _, .cons _ _ _ => simp [ident] at hid
      | .number _, .map _ => simp [ident] at hid
      | .number _, .function _ _ => simp [ident] at hid
      | .number _, .library _ _ => simp [ident] at hid
      | .number _, .vector _ => simp [ident] at hid
      | .number _, .exception _ _ => simp [ident] at hid
      | .boolean _, .nil => simp [ident] at hid
      | .boolean _, .symbol _ => simp [ident] at hid
      | .boolean _, .string _ => simp [ident] at hid
      | .boolean _, .number _ => simp [ident] at hid
      | .boolean _, .cons _ _ _ => simp [ident] at hid
      | .boolean _, .map _ => simp [ident] at hid
      | .boolean _, .function _ _ => simp [ident] at hid
      | .boolean _, .library _ _ => simp [ident] at hid
      | .boolean _, .vector _ => simp [ident] at hid
      | .boolean _, .exception _ _ => simp [ident] at hid
      | .cons _ _ _, .nil => simp [ident] at hid
      | .cons _ _ _, .symbol _ => simp [ident] at hid
      | .cons _ _ _, .string _ => simp [ident] at hid
      | .cons _ _ _, .number _ => simp [ident] at hid
      | .cons _ _ _, .boolean _ => simp [ident] at hid
      | .cons _ _ _, .map _ => simp [ident] at hid
      | .cons _ _ _, .function _ _ => simp [ident] at hid
      | .cons _ _ _, .library _ _ => simp [ident] at hid
      | .cons _ _ _, .vector _ => simp [ident] at hid
      | .cons _ _ _, .exception _ _ => simp [ident] at hid
      | .map _, .nil => simp [ident] at hid
      | .map _, .symbol _ => simp [ident] at hid
      | .map _, .string _ => simp [ident] at hid
      | .map _, .number _ => simp [ident] at hid
      | .map _, .boolean _ => simp [ident] at hid
      | .map _, .cons _ _ _ => simp [ident] at hid
      | .map _, .function _ _ => simp [ident] at hid
      | .map _, .library _ _ => simp [ident] at hid
      | .map _, .vector _ => simp [ident] at hid
      | .map _, .exception _ _ => simp [ident] at hid
      | .function _ _, .nil => simp [ident] at hid
      | .function _ _, .symbol _ => simp [ident] at hid
      | .function _ _, .string _ => simp [ident] at hid
      | .function _ _, .number _ => simp [ident] at hid
      | .function _ _, .boolean _ => simp [ident] at hid
      | .function _ _, .cons _ _ _ => simp [ident] at hid
      | .function _ _, .map _ => simp [ident] at hid
      | .function _ _, .library _ _ => simp [ident] at hid
      | .function _ _, .vector _ => simp [ident] at hid
      | .function _ _, .exception _ _ => simp [ident] at hid
      | .library _ _, .nil => simp [ident] at hid
      | .library _ _, .symbol _ => simp [ident] at hid
      | .library _ _, .string _ => simp [ident] at hid
      | .library _ _, .number _ => simp [ident] at hid
      | .library _ _, .boolean _ => simp [ident] at hid
      | .library _ _, .cons _ _ _ => simp [ident] at hid
      | .library _ _, .map _ => simp [ident] at hid
      | .library _ _, .function _ _ => simp [ident] at hid
      | .library _ _, .vector _ => simp [ident] at hid
      | .library _ _, .exception _ _ => simp [ident] at hid
      | .vector _, .nil => simp [ident] at hid
      | .vector _, .symbol _ => simp [ident] at hid
      | .vector _, .string _ => simp [ident] at hid
      | .vector _, .number _ => simp [ident] at hid
      | .vector _, .boolean _ => simp [ident] at hid
      | .vector _, .cons _ _ _ => simp [ident] at hid
      | .vector _, .map _ => simp [ident] at hid
      | .vector _, .function _ _ => simp [ident] at hid
      | .vector _, .library _ _ => simp [ident] at hid
      | .vector _, .exception _ _ => simp [ident] at hid
      | .exception _ _, .nil => simp [ident] at hid
      | .exception _ _, .symbol _ => simp [ident] at hid
      | .exception _ _, .string _ => simp [ident] at hid
      | .exception _ _, .number _ => simp [ident] at hid
      | .exception _ _, .boolean _ => simp [ident] at hid
      | .exception _ _, .cons _ _ _ => simp [ident] at hid
      | .exception _ _, .map _ => simp [ident] at hid
      | .exception _ _, .function _ _ => simp [ident] at hid
      | .exception _ _, .library _ _ => simp [ident] at hid
      | .exception _ _, .vector _ => simp [ident] at hid
    · intro bs1 bs2 hbs hid
      match bs1, bs2 with
      | [], [] => rfl
      | [], _ :: _ => simp [identBuckets] at hid
      | _ :: _, [] => simp [identBuckets] at hid
      | b1 :: r1, b2 :: r2 =>
        simp [identBuckets] at hid
        have hs : sizeOf b1 < n ∧ sizeOf r1 < n := by simp at hbs; omega
        rw [useBucket b1 b2 hs.1 hid.1, useBuckets r1 r2 hs.2 hid.2]
    · intro bk1 bk2 hbk hid
      match bk1, bk2 with
      | [], [] => rfl
      | [], _ :: _ => simp [identBucket] at hid
      | _ :: _, [] => simp [identBucket] at hid
      | (k1, v1) :: r1, (k2, v2) :: r2 =>
        simp [identBucket] at hid
        have hs : sizeOf k1 < n ∧ sizeOf v1 < n ∧ sizeOf r1 < n := by
          simp at hbk; omega
        rw [useVal k1 k2 hs.1 hid.1.1, useVal v1 v2 hs.2.1 hid.1.2,
          useBucket r1 r2 hs.2.2 hid.2]
    · intro l1 l2 hl hid
      match l1, l2 with
      | [], [] => rfl
      | [], _ :: _ => simp [identList] at hid
      | _ :: _, [] => simp [identList] at hid
      | e1 :: r1, e2 :: r2 =>
        simp [identList] at hid
        have hs : sizeOf e1 < n ∧ sizeOf r1 < n := by simp at hl; omega
        rw [useVal e1 e2 hs.1 hid.1, useList r1 r2 hs.2 hid.2]

theorem ident_sound {a b : Value} (h : ident a b = true) : a = b :=
  (identSound_all (sizeOf a)).1 a b le_rfl h

theorem ident_eq_true_iff (a b : Value) : ident a b = true ↔ a = b :=
  ⟨fun h => ident_sound h, fun h => h ▸ ident_refl a⟩

/-! ### Equality: basic laws and per-variant characterisations -/

theorem equals_def (a b : Value) :
    bowl_value_equals a b = (ident a b || structuralEquals a b) := by
  rw [bowl_value_equals]

theorem equals_refl (a : Value) : bowl_value_equals a a = true := by
  rw [equals_def, ident_refl a, Bool.true_or]

theorem equals_of_ident {a b : Value} (h : ident a b = true) :
    bowl_value_equals a b = true := by
  rw [equals_def, h, Bool.true_or]

theorem equalsElems_refl (l : List Value) : equalsElems l l = true := by
  induction l with
  | nil => simp [equalsElems]
  | cons e rest ih => simp [equalsElems, equals_refl, ih]

theorem equals_typeOf {a b : Value} (h : bowl_value_equals a b = true) :
    typeOf a = typeOf b := by
  cases a <;> cases b <;>
    simp_all [equals_def, ident, structuralEquals, typeOf]

theorem equals_symbol_symbol (x y : List Nat) :
    bowl_value_equals (.symbol x) (.symbol y) = true ↔ x = y := by
  simp [equals_def, ident, structuralEquals]

theorem equals_string_string (x y : List Nat) :
    bowl_value_equals (.string x) (.string y) = true ↔ x = y := by
  simp [equals_def, ident, structuralEquals]

theorem equals_number_number (x y : Nat) :
    bowl_value_equals (.number x) (.number y) = true ↔
      canonBits x = canonBits y := by
  simp only [equals_def, ident, structuralEquals, Bool.or_eq_true, beq_iff_eq]
  constructor
  · rintro (rfl | h) <;> simp [*]
  · intro h; exact Or.inr h

theorem equals_boolean_boolean (x y : Bool) :
    bowl_value_equals (.boolean x) (.boolean y) = true ↔ x = y := by
  simp [equals_def, ident, structuralEquals]

theorem equals_cons_cons (n1 n2 : Nat) (h1 t1 h2 t2 : Value) :
    bowl_value_equals (.cons n1 h1 t1) (.cons n2 h2 t2) = true ↔
      bowl_value_equals h1 h2 = true ∧ bowl_value_equals t1 t2 = true := by
  rw [equals_def]
  simp only [ident, structuralEquals, Bool.or_eq_true,
    Bool.and_eq_true, beq_iff_eq]
  constructor
  · rintro (⟨⟨rfl, hh⟩, ht⟩ | ⟨hh, ht⟩)
    · rw [ident_sound hh, ident_sound ht]
      exact ⟨equals_refl _, equals_refl _⟩
    · exact ⟨hh, ht⟩
  · intro h; exact Or.inr h

theorem equals_map_map (bs1 bs2 : List (List (Value × Value))) :
    bowl_value_equals (.map bs1) (.map bs2) = true ↔
      (bs1 = bs2 ∨ (subsetB bs1 bs2 = true ∧ subsetB bs2 bs1 = true)) := by
  simp only [equals_def, ident, structuralEquals, Bool.or_eq_true, Bool.and_eq_true]
  constructor
  · rintro (h | h)
    · exact Or.inl ((identSound_all (sizeOf bs1)).2.1 bs1 bs2 le_rfl h)
    · exact Or.inr h
  · rintro (rfl | h)
    · exact Or.inl ((identRefl_all (sizeOf bs1)).2.1 bs1 le_rfl)
    · exact Or.inr h

theorem equals_function_function (l1 p1 l2 p2 : Nat) :
    bowl_value_equals (.function l1 p1) (.function l2 p2) = true ↔
      l1 = l2 ∧ p1 = p2 := by
  simp [equals_def, ident, structuralEquals]

theorem equals_library_library (h1 h2 : Nat) (n1 n2 : List Nat) :
    bowl_value_equals (.library h1 n1) (.library h2 n2) = true ↔
      h1 = h2 ∧ n1 = n2 := by
  simp [equals_def, ident, structuralEquals]

theorem equals_vector_vector (e1 e2 : List Value) :
    bowl_value_equals (.vector e1) (.vector e2) = true ↔
      equalsElems e1 e2 = true := by
  simp only [equals_def, ident, structuralEquals, Bool.or_eq_true]
  constructor
  · rintro (h | h)
    · rw [(identSound_all (sizeOf e1)).2.2.2 e1 e2 le_rfl h]
      exact equalsElems_refl _
    · exact h
  · intro h; exact Or.inr h

theorem equals_exception_exception (c1 m1 c2 m2 : Value) :
    bowl_value_equals (.exception c1 m1) (.exception c2 m2) = true ↔
      bowl_value_equals c1 c2 = true ∧ bowl_value_equals m1 m2 = true := by
  rw [equals_def]
  simp only [ident, structuralEquals, Bool.or_eq_true, Bool.and_eq_true]
  constructor
  · rintro (⟨hc, hm⟩ | h)
    · rw [ident_sound hc, ident_sound hm]
      exact ⟨equals_refl _, equals_refl _⟩
    · exact h
  · intro h; exact Or.inr h

theorem equals_nil_right {a : Value} (h : bowl_value_equals a .nil = true) :
    a = .nil := by
  cases a <;> simp_all [equals_def, ident, structuralEquals]

theorem equals_nil_left {a : Value} (h : bowl_value_equals .nil a = true) :
    a = .nil := by
  cases a <;> simp_all [equals_def, ident, structuralEquals]

theorem shape_symbol {b : Value} (h : typeOf b = .BowlSymbolValue) :
    ∃ s, b = .symbol s := by cases b <;> simp_all [typeOf]

theorem shape_string {b : Value} (h : typeOf b = .BowlStringValue) :
    ∃ s, b = .string s := by cases b <;> simp_all [typeOf]

theorem shape_number {b : Value} (h : typeOf b = .BowlNumberValue) :
    ∃ x, b = .number x := by cases b <;> simp_all [typeOf]

theorem shape_boolean {b : Value} (h : typeOf b = .BowlBooleanValue) :
    ∃ x, b = .boolean x := by cases b <;> simp_all [typeOf]

theorem shape_list {b : Value} (h : typeOf b = .BowlListValue) :
    b = .nil ∨ ∃ n hd t, b = .cons n hd t := by cases b <;> simp_all [typeOf]

theorem shape_map {b : Value} (h : typeOf b = .BowlMapValue) :
    ∃ bs, b = .map bs := by cases b <;> simp_all [typeOf]

theorem shape_function {b : Value} (h : typeOf b = .BowlNativeValue) :
    ∃ l p, b = .function l p := by cases b <;> simp_all [typeOf]

theorem shape_library {b : Value} (h : typeOf b = .BowlLibraryValue) :
    ∃ hd nm, b = .library hd nm := by cases b <;> simp_all [typeOf]

theorem shape_vector {b : Value} (h : typeOf b = .BowlVectorValue) :
    ∃ es, b = .vector es := by cases b <;> simp_all [typeOf]

theorem shape_exception {b : Value} (h : typeOf b = .BowlExceptionValue) :
    ∃ c m, b = .exception c m := by cases b <;> simp_all [typeOf]

/-! ### Symmetry of equality -/

theorem equalsSymm_all : ∀ n : Nat,
    (∀ a b : Value, sizeOf a ≤ n → sizeOf b ≤ n →
      bowl_value_equals a b = true → bowl_value_equals b a = true) ∧
    (∀ l1 l2 : List Value, sizeOf l1 ≤ n → sizeOf l2 ≤ n →
      equalsElems l1 l2 = true → equalsElems l2 l1 = true) := by
  intro n
  induction n using Nat.strong_induction_on with
  | _ n IH =>
    have useVal : ∀ a b : Value, sizeOf a < n → sizeOf b < n →
        bowl_value_equals a b = true → bowl_value_equals b a = true := by
      intro a b ha hb h
      exact (IH (max (sizeOf a) (sizeOf b)) (by omega)).1 a b (by omega) (by omega) h
    have useElems : ∀ l1 l2 : List Value, sizeOf l1 < n → sizeOf l2 < n →
        equalsElems l1 l2 = true → equalsElems l2 l1 = true := by
      intro l1 l2 h1 h2 h
      exact (IH (max (sizeOf l1) (sizeOf l2)) (by omega)).2 l1 l2 (by omega) (by omega) h
    constructor
    · intro a b ha hb h
      match a with
      | .nil => rw [equals_nil_left h]; exact equals_refl _
      | .symbol s =>
        obtain ⟨y, rfl⟩ := shape_symbol (equals_typeOf h).symm
        rw [equals_symbol_symbol] at h ⊢
        exact h.symm
      | .string s =>
        obtain ⟨y, rfl⟩ := shape_string (equals_typeOf h).symm
        rw [equals_string_string] at h ⊢
        exact h.symm
      | .number x =>
        obtain ⟨y, rfl⟩ := shape_number (equals_typeOf h).symm
        rw [equals_number_number] at h ⊢
        exact h.symm
      | .boolean x =>
        obtain ⟨y, rfl⟩ := shape_boolean (equals_typeOf h).symm
        rw [equals_boolean_boolean] at h ⊢
        exact h.symm
      | .cons n1 h1 t1 =>
        rcases shape_list (equals_typeOf h).symm with rfl | ⟨n2, h2, t2, rfl⟩
        · exact absurd (equals_nil_right h) (by simp)
        · rw [equals_cons_cons] at h ⊢
          have hs1 : sizeOf h1 < n ∧ sizeOf t1 < n := by simp at ha; omega
          have hs2 : sizeOf h2 < n ∧ sizeOf t2 < n := by simp at hb; omega
          exact ⟨useVal h1 h2 hs1.1 hs2.1 h.1, useVal t1 t2 hs1.2 hs2.2 h.2⟩
      | .map bs1 =>
        obtain ⟨bs2, rfl⟩ := shape_map (equals_typeOf h).symm
        rw [equals_map_map] at h ⊢
        rcases h with rfl | ⟨hab, hba⟩
        · exact Or.inl rfl
        · exact Or.inr ⟨hba, hab⟩
      | .function l p =>
        obtain ⟨l2, p2, rfl⟩ := shape_function (equals_typeOf h).symm
        rw [equals_function_function] at h ⊢
        exact ⟨h.1.symm, h.2.symm⟩
      | .library hd nm =>
        obtain ⟨hd2, nm2, rfl⟩ := shape_library (equals_typeOf h).symm
        rw [equals_library_library] at h ⊢
        exact ⟨h.1.symm, h.2.symm⟩
      | .vector e1 =>
        obtain ⟨e2, rfl⟩ := shape_vector (equals_typeOf h).symm
        rw [equals_vector_vector] at h ⊢
        have hs1 : sizeOf e1 < n := by simp at ha; omega
        have hs2 : sizeOf e2 < n := by simp at hb; omega
        exact useElems e1 e2 hs1 hs2 h
      | .exception c1 m1 =>
        obtain ⟨c2, m2, rfl⟩ := shape_exception (equals_typeOf h).symm
        rw [equals_exception_exception] at h ⊢
        have hs1 : sizeOf c1 < n ∧ sizeOf m1 < n := by simp at ha; omega
        have hs2 : sizeOf c2 < n ∧ sizeOf m2 < n := by simp at hb; omega
        exact ⟨useVal c1 c2 hs1.1 hs2.1 h.1, useVal m1 m2 hs1.2 hs2.2 h.2⟩
    · intro l1 l2 hl1 hl2 h
      match l1, l2 with
      | [], [] => simp [equalsElems]
      | [], _ :: _ => simp [equalsElems] at h
      | _ :: _, [] => simp [equalsElems] at h
      | e1 :: r1, e2 :: r2 =>
        simp only [equalsElems, Bool.and_eq_true] at h ⊢
        have hs1 : sizeOf e1 < n ∧ sizeOf r1 < n := by simp at hl1; omega
        have hs2 : sizeOf e2 < n ∧ sizeOf r2 < n := by simp at hl2; omega
        exact ⟨useVal e1 e2 hs1.1 hs2.1 h.1, useElems r1 r2 hs1.2 hs2.2 h.2⟩

theorem equals_symm {a b : Value} (h : bowl_value_equals a b = true) :
    bowl_value_equals b a = true :=
  (equalsSymm_all (max (sizeOf a) (sizeOf b))).1 a b (by omega) (by omega) h

/-! ### Subset extraction lemmas -/

theorem findPair_eq_bucketFind (bucket : List (Value × Value)) (k v : Value) :
    findPair bucket k v =
      (match bucketFind bucket k with
        | some v1 => bowl_value_equals v1 v
        | none => false) := by
  induction bucket with
  | nil => rw [findPair, bucketFind]
  | cons e rest ih =>
    obtain ⟨k1, v1⟩ := e
    rw [findPair, bucketFind]
    by_cases h : bowl_value_equals k1 k = true
    · simp [h]
    · simp only [Bool.not_eq_true] at h
      simp [h, ih]

theorem entriesAll_iff (super : List (List (Value × Value)))
    (l : List (Value × Value)) :
    entriesAll super l = true ↔
      ∀ e ∈ l, findPair (bucketFor super e.1) e.1 e.2 = true := by
  induction l with
  | nil => simp [entriesAll]
  | cons e rest ih =>
    obtain ⟨k, v⟩ := e
    rw [entriesAll]
    simp [Bool.and_eq_true, ih]

theorem subsetB_iff (A B : List (List (Value × Value))) :
    subsetB A B = true ↔
      ((mapEntries B).length ≤ (mapEntries A).length ∧
        ∀ e ∈ mapEntries B, findPair (bucketFor A e.1) e.1 e.2 = true) := by
  rw [subsetB]
  simp [Bool.and_eq_true, entriesAll_iff]

theorem bucketFind_mem {bucket : List (Value × Value)} {k v1 : Value}
    (h : bucketFind bucket k = some v1) :
    ∃ k1, (k1, v1) ∈ bucket ∧ bowl_value_equals k1 k = true := by
  induction bucket with
  | nil => simp [bucketFind] at h
  | cons e rest ih =>
    obtain ⟨k2, v2⟩ := e
    rw [bucketFind] at h
    by_cases heq : bowl_value_equals k2 k = true
    · rw [if_pos heq] at h
      obtain rfl := Option.some_injective _ h
      exact ⟨k2, List.mem_cons_self _ _, heq⟩
    · rw [if_neg heq] at h
      obtain ⟨k1, hmem, he⟩ := ih h
      exact ⟨k1, List.mem_cons_of_mem _ hmem, he⟩

theorem bucketFind_eq_none_iff (bucket : List (Value × Value)) (k : Value) :
    bucketFind bucket k = none ↔
      ∀ e ∈ bucket, bowl_value_equals e.1 k = false := by
  induction bucket with
  | nil => simp [bucketFind]
  | cons e rest ih =>
    obtain ⟨k1, v1⟩ := e
    rw [bucketFind]
    by_cases heq : bowl_value_equals k1 k = true
    · simp [heq]
    · simp only [Bool.not_eq_true] at heq
      simp [heq, ih]

theorem mem_getD_mem_entries {bs : List (List (Value × Value))}
    {e : Value × Value} {i : Nat} (h : e ∈ bs.getD i []) :
    e ∈ mapEntries bs := by
  rcases lt_or_ge i bs.length with hlt | hge
  · rw [List.getD_eq_getElem _ _ hlt] at h
    exact List.mem_flatten.mpr ⟨bs[i], List.getElem_mem hlt, h⟩
  · rw [List.getD_eq_default _ _ hge] at h
    simp at h

theorem mem_bucketFor {bs : List (List (Value × Value))} {e : Value × Value}
    {k : Value} (h : e ∈ bucketFor bs k) : e ∈ mapEntries bs :=
  mem_getD_mem_entries h

theorem findPair_true_exists {bucket : List (Value × Value)} {k v : Value}
    (h : findPair bucket k v = true) :
    ∃ e ∈ bucket, bowl_value_equals e.1 k = true ∧
      bowl_value_equals e.2 v = true := by
  rw [findPair_eq_bucketFind] at h
  rcases hb : bucketFind bucket k with _ | v1
  · rw [hb] at h; simp at h
  · rw [hb] at h
    obtain ⟨k1, hmem, hk⟩ := bucketFind_mem hb
    exact ⟨(k1, v1), hmem, hk, h⟩

/-! ### A permutation from a mutual entry matching -/

theorem perm_of_mutual_match (E : Value → Value → Prop)
    (hsymm : ∀ u v, E u v → E v u)
    (htrans : ∀ u v w, E u v → E v w → E u w)
    (hf : Value × Value → Nat) :
    ∀ (xs ys : List (Value × Value)),
      xs.length = ys.length →
      (∀ x ∈ xs, ∃ y ∈ ys, E y.1 x.1 ∧ hf y = hf x) →
      (∀ y ∈ ys, ∃ x ∈ xs, E x.1 y.1 ∧ hf x = hf y) →
      xs.Pairwise (fun x1 x2 => ¬ E x1.1 x2.1) →
      ys.Pairwise (fun y1 y2 => ¬ E y1.1 y2.1) →
      List.Perm (xs.map hf) (ys.map hf) := by
  intro xs
  induction xs with
  | nil =>
    intro ys hlen _ _ _ _
    cases ys with
    | nil => exact List.Perm.refl _
    | cons y ys' => simp at hlen
  | cons x xs' IHx =>
    intro ys hlen hxy hyx hpx hpy
    obtain ⟨y, hyin, hEyx, hfyx⟩ := hxy x (List.mem_cons_self x xs')
    obtain ⟨l1, l2, rfl⟩ := List.append_of_mem hyin
    have hlen' : xs'.length = (l1 ++ l2).length := by
      simp at hlen ⊢; omega
    rw [List.pairwise_cons] at hpx
    obtain ⟨hxfresh, hpx'⟩ := hpx
    rw [List.pairwise_append] at hpy
    obtain ⟨hpl1, hpyl2, hcross⟩ := hpy
    rw [List.pairwise_cons] at hpyl2
    obtain ⟨hyl2, hpl2⟩ := hpyl2
    have hxy' : ∀ x' ∈ xs', ∃ y' ∈ l1 ++ l2, E y'.1 x'.1 ∧ hf y' = hf x' := by
      intro x' hx'
      obtain ⟨y', hy'in, hE, hhf⟩ := hxy x' (List.mem_cons_of_mem _ hx')
      rcases List.mem_append.mp hy'in with h1 | h2
      · exact ⟨y', List.mem_append.mpr (Or.inl h1), hE, hhf⟩
      · rcases List.mem_cons.mp h2 with rfl | h2'
        · exact absurd (htrans _ _ _ (hsymm _ _ hEyx) hE) (hxfresh x' hx')
        · exact ⟨y', List.mem_append.mpr (Or.inr h2'), hE, hhf⟩
    have hyx' : ∀ y' ∈ l1 ++ l2, ∃ x' ∈ xs', E x'.1 y'.1 ∧ hf x' = hf y' := by
      intro y' hy'
      have hy'ys : y' ∈ l1 ++ y :: l2 := by
        rcases List.mem_append.mp hy' with h1 | h2
        · exact List.mem_append.mpr (Or.inl h1)
        · exact List.mem_append.mpr (Or.inr (List.mem_cons_of_mem _ h2))
      obtain ⟨x'', hx''in, hE, hhf⟩ := hyx y' hy'ys
      rcases List.mem_cons.mp hx''in with rfl | hmem
      · have hyy' : E y.1 y'.1 := htrans _ _ _ hEyx hE
        rcases List.mem_append.mp hy' with h1 | h2
        · exact absurd (hsymm _ _ hyy')
            (hcross y' h1 y (List.mem_cons_self _ _))
        · exact absurd hyy' (hyl2 y' h2)
      · exact ⟨x'', hmem, hE, hhf⟩
    have hpl12 : (l1 ++ l2).Pairwise (fun y1 y2 => ¬E y1.1 y2.1) := by
      rw [List.pairwise_append]
      exact ⟨hpl1, hpl2, fun a ha b hb => hcross a ha b (List.mem_cons_of_mem _ hb)⟩
    have hperm := IHx (l1 ++ l2) hlen' hxy' hyx' hpx' hpl12
    have step1 : List.Perm ((x :: xs').map hf) (hf y :: (l1 ++ l2).map hf) := by
      rw [List.map_cons, ← hfyx]
      exact hperm.cons _
    have step2 : List.Perm (hf y :: (l1 ++ l2).map hf) ((l1 ++ y :: l2).map hf) := by
      rw [List.map_append, List.map_append, List.map_cons]
      exact List.perm_middle.symm
    exact step1.trans step2

/-! ### Entry hashes as sums -/

/-- The hash contribution of one map entry. -/
def entryHash (e : Value × Value) : Nat :=
  mix2 (bowl_value_hash e.1) (bowl_value_hash e.2)

theorem hashBucket_eq_sum (bucket : List (Value × Value)) :
    hashBucket bucket = (bucket.map entryHash).sum := by
  induction bucket with
  | nil => rw [hashBucket]; simp
  | cons e rest ih =>
    obtain ⟨k, v⟩ := e
    rw [hashBucket]
    simp [entryHash, ih]

theorem hashBuckets_eq_sum (bs : List (List (Value × Value))) :
    hashBuckets bs = ((mapEntries bs).map entryHash).sum := by
  induction bs with
  | nil => rw [hashBuckets]; simp [mapEntries]
  | cons b rest ih =>
    rw [hashBuckets]
    simp [mapEntries, hashBucket_eq_sum, ih]

theorem sizeOf_entry_lt {bs : List (List (Value × Value))} {e : Value × Value}
    (h : e ∈ mapEntries bs) :
    sizeOf e.1 < sizeOf bs ∧ sizeOf e.2 < sizeOf bs := by
  obtain ⟨bucket, hb, he⟩ := List.mem_flatten.mp h
  have h1 := List.sizeOf_lt_of_mem hb
  have h2 := List.sizeOf_lt_of_mem he
  obtain ⟨k, v⟩ := e
  simp only [Prod.mk.sizeOf_spec] at h2
  constructor <;> (simp only; omega)

theorem bucketFind_congr {bucket : List (Value × Value)} {k1 k2 : Value}
    (h : ∀ e ∈ bucket, bowl_value_equals e.1 k1 = bowl_value_equals e.1 k2) :
    bucketFind bucket k1 = bucketFind bucket k2 := by
  induction bucket with
  | nil => rw [bucketFind, bucketFind]
  | cons e rest ih =>
    obtain ⟨ke, ve⟩ := e
    rw [bucketFind, bucketFind,
      h (ke, ve) (List.mem_cons_self _ _)]
    by_cases heq : bowl_value_equals ke k2 = true
    · rw [if_pos heq, if_pos heq]
    · rw [if_neg heq, if_neg heq]
      exact ih (fun e he => h e (List.mem_cons_of_mem _ he))

theorem findPair_true_elim {bucket : List (Value × Value)} {k v : Value}
    (h : findPair bucket k v = true) :
    ∃ v2, bucketFind bucket k = some v2 ∧ bowl_value_equals v2 v = true := by
  rw [findPair_eq_bucketFind] at h
  rcases hb : bucketFind bucket k with _ | v2
  · rw [hb] at h; simp at h
  · rw [hb] at h; exact ⟨v2, rfl, h⟩

theorem findPair_of_bucketFind {bucket : List (Value × Value)} {k v v2 : Value}
    (hb : bucketFind bucket k = some v2)
    (hv : bowl_value_equals v2 v = true) : findPair bucket k v = true := by
  rw [findPair_eq_bucketFind, hb]
  exact hv

/-! ### Transitivity of map subset, given the inductive hypotheses -/

theorem subsetB_trans_helper (n : Nat)
    (lawIH : ∀ a b : Value, sizeOf a < n → sizeOf b < n → NoDupMaps a →
      NoDupMaps b → bowl_value_equals a b = true →
      bowl_value_hash a = bowl_value_hash b)
    (transIH : ∀ a b c : Value, sizeOf a < n → sizeOf b < n → sizeOf c < n →
      NoDupMaps a → NoDupMaps b → NoDupMaps c →
      bowl_value_equals a b = true → bowl_value_equals b c = true →
      bowl_value_equals a c = true)
    (X Y Z : List (List (Value × Value)))
    (hX : sizeOf X < n) (hY : sizeOf Y < n) (hZ : sizeOf Z < n)
    (hnX1 : ∀ e ∈ mapEntries X, NoDupMaps e.1)
    (hnX2 : ∀ e ∈ mapEntries X, NoDupMaps e.2)
    (hnY1 : ∀ e ∈ mapEntries Y, NoDupMaps e.1)
    (hnY2 : ∀ e ∈ mapEntries Y, NoDupMaps e.2)
    (hnZ1 : ∀ e ∈ mapEntries Z, NoDupMaps e.1)
    (hnZ2 : ∀ e ∈ mapEntries Z, NoDupMaps e.2)
    (hXY : subsetB X Y = true) (hYZ : subsetB Y Z = true) :
    subsetB X Z = true := by
  rw [subsetB_iff] at hXY hYZ ⊢
  refine ⟨le_trans hYZ.1 hXY.1, ?_⟩
  rintro ⟨k, v⟩ hkv
  have hkZ : sizeOf k < n ∧ sizeOf v < n := by
    have := sizeOf_entry_lt hkv
    dsimp only at this
    omega
  have hnk : NoDupMaps k := hnZ1 _ hkv
  have hnv : NoDupMaps v := hnZ2 _ hkv
  -- the entry is found in Y
  obtain ⟨e1, he1mem, he1k, he1v⟩ := findPair_true_exists (hYZ.2 _ hkv)
  obtain ⟨k1, v1⟩ := e1
  have he1Y : (k1, v1) ∈ mapEntries Y := mem_bucketFor he1mem
  have hk1Y : sizeOf k1 < n ∧ sizeOf v1 < n := by
    have := sizeOf_entry_lt he1Y
    dsimp only at this
    omega
  have hnk1 : NoDupMaps k1 := hnY1 _ he1Y
  have hnv1 : NoDupMaps v1 := hnY2 _ he1Y
  -- that entry of Y is found in X
  have hfind1 : findPair (bucketFor X k1) k1 v1 = true := hXY.2 (k1, v1) he1Y
  obtain ⟨v2, hbf2, hv2v1⟩ := findPair_true_elim hfind1
  have hhash : bowl_value_hash k1 = bowl_value_hash k :=
    lawIH k1 k hk1Y.1 hkZ.1 hnk1 hnk he1k
  have hbuck : bucketFor X k = bucketFor X k1 := by
    unfold bucketFor; rw [hhash]
  have hcongr : ∀ e ∈ bucketFor X k1,
      bowl_value_equals e.1 k = bowl_value_equals e.1 k1 := by
    intro e he
    have heX : e ∈ mapEntries X := mem_bucketFor he
    have heSz := sizeOf_entry_lt heX
    have hne1 : NoDupMaps e.1 := hnX1 _ heX
    by_cases h1 : bowl_value_equals e.1 k1 = true
    · rw [h1]
      exact transIH e.1 k1 k (by omega) hk1Y.1 hkZ.1 hne1 hnk1 hnk h1 he1k
    · have h2 : bowl_value_equals e.1 k ≠ true := by
        intro h2
        exact h1 (transIH e.1 k k1 (by omega) hkZ.1 hk1Y.1 hne1 hnk hnk1 h2
          (equals_symm he1k))
      simp only [ne_eq, Bool.not_eq_true] at h1 h2
      rw [h1, h2]
  have hfound : bucketFind (bucketFor X k) k = some v2 := by
    rw [hbuck, bucketFind_congr hcongr, hbf2]
  obtain ⟨k2, hk2mem, _⟩ := bucketFind_mem hbf2
  have hv2sz := (sizeOf_entry_lt (mem_bucketFor hk2mem)).2
  dsimp only at hv2sz
  have hnv2 : NoDupMaps v2 := hnX2 _ (mem_bucketFor hk2mem)
  have hv2v : bowl_value_equals v2 v = true :=
    transIH v2 v1 v (by omega) hk1Y.2 hkZ.2 hnv2 hnv1 hnv hv2v1 he1v
  exact findPair_of_bucketFind hfound hv2v

/-! ### Equal maps have equal entry-hash sums, given the inductive
hypotheses -/

theorem mapHash_helper (n : Nat)
    (lawIH : ∀ a b : Value, sizeOf a < n → sizeOf b < n → NoDupMaps a →
      NoDupMaps b → bowl_value_equals a b = true →
      bowl_value_hash a = bowl_value_hash b)
    (transIH : ∀ a b c : Value, sizeOf a < n → sizeOf b < n → sizeOf c < n →
      NoDupMaps a → NoDupMaps b → NoDupMaps c →
      bowl_value_equals a b = true → bowl_value_equals b c = true →
      bowl_value_equals a c = true)
    (bs1 bs2 : List (List (Value × Value)))
    (h1 : sizeOf bs1 < n) (h2 : sizeOf bs2 < n)
    (hn11 : ∀ e ∈ mapEntries bs1, NoDupMaps e.1)
    (hn12 : ∀ e ∈ mapEntries bs1, NoDupMaps e.2)
    (hn21 : ∀ e ∈ mapEntries bs2, NoDupMaps e.1)
    (hn22 : ∀ e ∈ mapEntries bs2, NoDupMaps e.2)
    (hd1 : KeysPairwiseDistinct (mapEntries bs1))
    (hd2 : KeysPairwiseDistinct (mapEntries bs2))
    (hab : subsetB bs1 bs2 = true) (hba : subsetB bs2 bs1 = true) :
    hashBuckets bs1 = hashBuckets bs2 := by
  rw [subsetB_iff] at hab hba
  have hlen : (mapEntries bs1).length = (mapEntries bs2).length :=
    le_antisymm hba.1 hab.1
  have hperm := perm_of_mutual_match
    (fun u v => (sizeOf u < n ∧ NoDupMaps u) ∧ (sizeOf v < n ∧ NoDupMaps v) ∧
      bowl_value_equals u v = true)
    (fun u v h => ⟨h.2.1, h.1, equals_symm h.2.2⟩)
    (fun u v w huv hvw =>
      ⟨huv.1, hvw.2.1, transIH u v w huv.1.1 huv.2.1.1 hvw.2.1.1 huv.1.2
        huv.2.1.2 hvw.2.1.2 huv.2.2 hvw.2.2⟩)
    entryHash (mapEntries bs1) (mapEntries bs2) hlen
    ?hxy ?hyx ?hp1 ?hp2
  case hxy =>
    rintro ⟨k, v⟩ hkv
    obtain ⟨e, hemem, hek, hev⟩ := findPair_true_exists (hba.2 _ hkv)
    have heB : e ∈ mapEntries bs2 := mem_bucketFor hemem
    have hsz1 := sizeOf_entry_lt hkv
    have hsz2 := sizeOf_entry_lt heB
    dsimp only at hsz1 hek hev ⊢
    refine ⟨e, heB, ⟨⟨by omega, hn21 _ heB⟩, ⟨by omega, hn11 _ hkv⟩, hek⟩, ?_⟩
    unfold entryHash
    rw [lawIH e.1 k (by omega) (by omega) (hn21 _ heB) (hn11 _ hkv) hek,
      lawIH e.2 v (by omega) (by omega) (hn22 _ heB) (hn12 _ hkv) hev]
  case hyx =>
    rintro ⟨k, v⟩ hkv
    obtain ⟨e, hemem, hek, hev⟩ := findPair_true_exists (hab.2 _ hkv)
    have heA : e ∈ mapEntries bs1 := mem_bucketFor hemem
    have hsz1 := sizeOf_entry_lt hkv
    have hsz2 := sizeOf_entry_lt heA
    dsimp only at hsz1 hek hev ⊢
    refine ⟨e, heA, ⟨⟨by omega, hn11 _ heA⟩, ⟨by omega, hn21 _ hkv⟩, hek⟩, ?_⟩
    unfold entryHash
    rw [lawIH e.1 k (by omega) (by omega) (hn11 _ heA) (hn21 _ hkv) hek,
      lawIH e.2 v (by omega) (by omega) (hn12 _ heA) (hn22 _ hkv) hev]
  case hp1 =>
    exact hd1.imp (fun hne hE => by rw [hE.2.2] at hne; exact Bool.noConfusion hne)
  case hp2 =>
    exact hd2.imp (fun hne hE => by rw [hE.2.2] at hne; exact Bool.noConfusion hne)
  rw [hashBuckets_eq_sum, hashBuckets_eq_sum, hperm.sum_eq]

/-! ### Element-list law and transitivity, given the inductive hypotheses -/

theorem elemsLaw_helper (n : Nat)
    (lawIH : ∀ a b : Value, sizeOf a < n → sizeOf b < n → NoDupMaps a →
      NoDupMaps b → bowl_value_equals a b = true →
      bowl_value_hash a = bowl_value_hash b) :
    ∀ l1 l2 : List Value, sizeOf l1 < n → sizeOf l2 < n →
      (∀ e ∈ l1, NoDupMaps e) → (∀ e ∈ l2, NoDupMaps e) →
      equalsElems l1 l2 = true → hashElems l1 = hashElems l2 := by
  intro l1
  induction l1 with
  | nil =>
    intro l2 _ _ _ _ h
    cases l2 with
    | nil => rfl
    | cons e2 r2 => simp [equalsElems] at h
  | cons e1 r1 ih =>
    intro l2 hs1 hs2 hn1 hn2 h
    cases l2 with
    | nil => simp [equalsElems] at h
    | cons e2 r2 =>
      simp only [equalsElems, Bool.and_eq_true] at h
      have hb1 : sizeOf e1 < n ∧ sizeOf r1 < n := by simp at hs1; omega
      have hb2 : sizeOf e2 < n ∧ sizeOf r2 < n := by simp at hs2; omega
      rw [hashElems, hashElems,
        lawIH e1 e2 hb1.1 hb2.1 (hn1 _ (List.mem_cons_self _ _))
          (hn2 _ (List.mem_cons_self _ _)) h.1,
        ih r2 hb1.2 hb2.2 (fun e he => hn1 _ (List.mem_cons_of_mem _ he))
          (fun e he => hn2 _ (List.mem_cons_of_mem _ he)) h.2]

theorem elemsTrans_helper (n : Nat)
    (transIH : ∀ a b c : Value, sizeOf a < n → sizeOf b < n → sizeOf c < n →
      NoDupMaps a → NoDupMaps b → NoDupMaps c →
      bowl_value_equals a b = true → bowl_value_equals b c = true →
      bowl_value_equals a c = true) :
    ∀ l1 l2 l3 : List Value, sizeOf l1 < n → sizeOf l2 < n → sizeOf l3 < n →
      (∀ e ∈ l1, NoDupMaps e) → (∀ e ∈ l2, NoDupMaps e) →
      (∀ e ∈ l3, NoDupMaps e) →
      equalsElems l1 l2 = true → equalsElems l2 l3 = true →
      equalsElems l1 l3 = true := by
  intro l1
  induction l1 with
  | nil =>
    intro l2 l3 _ _ _ _ _ _ h12 h23
    cases l2 with
    | nil => exact h23
    | cons e2 r2 => simp [equalsElems] at h12
  | cons e1 r1 ih =>
    intro l2 l3 hs1 hs2 hs3 hn1 hn2 hn3 h12 h23
    cases l2 with
    | nil => simp [equalsElems] at h12
    | cons e2 r2 =>
      cases l3 with
      | nil => simp [equalsElems] at h23
      | cons e3 r3 =>
        simp only [equalsElems, Bool.and_eq_true] at h12 h23 ⊢
        have hb1 : sizeOf e1 < n ∧ sizeOf r1 < n := by simp at hs1; omega
        have hb2 : sizeOf e2 < n ∧ sizeOf r2 < n := by simp at hs2; omega
        have hb3 : sizeOf e3 < n ∧ sizeOf r3 < n := by simp at hs3; omega
        refine ⟨transIH e1 e2 e3 hb1.1 hb2.1 hb3.1
          (hn1 _ (List.mem_cons_self _ _)) (hn2 _ (List.mem_cons_self _ _))
          (hn3 _ (List.mem_cons_self _ _)) h12.1 h23.1, ?_⟩
        exact ih r2 r3 hb1.2 hb2.2 hb3.2
          (fun e he => hn1 _ (List.mem_cons_of_mem _ he))
          (fun e he => hn2 _ (List.mem_cons_of_mem _ he))
          (fun e he => hn3 _ (List.mem_cons_of_mem _ he)) h12.2 h23.2

/-! ### The hash/equals law and transitivity of equality -/

theorem lawTrans_all : ∀ n : Nat,
    (∀ a b : Value, sizeOf a ≤ n → sizeOf b ≤ n → NoDupMaps a → NoDupMaps b →
      bowl_value_equals a b = true → bowl_value_hash a = bowl_value_hash b) ∧
    (∀ a b c : Value, sizeOf a ≤ n → sizeOf b ≤ n → sizeOf c ≤ n →
      NoDupMaps a → NoDupMaps b → NoDupMaps c →
      bowl_value_equals a b = true → bowl_value_equals b c = true →
      bowl_value_equals a c = true) := by
  intro n
  induction n using Nat.strong_induction_on with
  | _ n IH =>
    have lawIH : ∀ a b : Value, sizeOf a < n → sizeOf b < n → NoDupMaps a →
        NoDupMaps b → bowl_value_equals a b = true →
        bowl_value_hash a = bowl_value_hash b := fun a b ha hb =>
      (IH (max (sizeOf a) (sizeOf b)) (by omega)).1 a b (by omega) (by omega)
    have transIH : ∀ a b c : Value, sizeOf a < n → sizeOf b < n →
        sizeOf c < n → NoDupMaps a → NoDupMaps b → NoDupMaps c →
        bowl_value_equals a b = true → bowl_value_equals b c = true →
        bowl_value_equals a c = true := fun a b c ha hb hc =>
      (IH (max (sizeOf a) (max (sizeOf b) (sizeOf c))) (by omega)).2 a b c
        (by omega) (by omega) (by omega)
    constructor
    · intro a b ha hb hna hnb h
      match a with
      | .nil => rw [equals_nil_left h]
      | .symbol s =>
        obtain ⟨y, rfl⟩ := shape_symbol (equals_typeOf h).symm
        rw [(equals_symbol_symbol s y).mp h]
      | .string s =>
        obtain ⟨y, rfl⟩ := shape_string (equals_typeOf h).symm
        rw [(equals_string_string s y).mp h]
      | .number x =>
        obtain ⟨y, rfl⟩ := shape_number (equals_typeOf h).symm
        have hcanon := (equals_number_number x y).mp h
        simp only [bowl_value_hash]
        rw [hcanon]
      | .boolean x =>
        obtain ⟨y, rfl⟩ := shape_boolean (equals_typeOf h).symm
        rw [(equals_boolean_boolean x y).mp h]
      | .cons n1 h1 t1 =>
        rcases shape_list (equals_typeOf h).symm with rfl | ⟨n2, h2, t2, rfl⟩
        · exact absurd (equals_nil_right h) (by simp)
        · rw [equals_cons_cons] at h
          cases hna with
          | cons _ _ _ hnh1 hnt1 =>
            cases hnb with
            | cons _ _ _ hnh2 hnt2 =>
              have hb1 : sizeOf h1 < n ∧ sizeOf t1 < n := by simp at ha; omega
              have hb2 : sizeOf h2 < n ∧ sizeOf t2 < n := by simp at hb; omega
              simp only [bowl_value_hash]
              rw [lawIH h1 h2 hb1.1 hb2.1 hnh1 hnh2 h.1,
                lawIH t1 t2 hb1.2 hb2.2 hnt1 hnt2 h.2]
      | .map bs1 =>
        obtain ⟨bs2, rfl⟩ := shape_map (equals_typeOf h).symm
        rw [equals_map_map] at h
        rcases h with rfl | ⟨hab, hba⟩
        · rfl
        · cases hna with
          | map _ hn11 hn12 hd1 =>
            cases hnb with
            | map _ hn21 hn22 hd2 =>
              have hb1 : sizeOf bs1 < n := by simp at ha; omega
              have hb2 : sizeOf bs2 < n := by simp at hb; omega
              simp only [bowl_value_hash]
              rw [mapHash_helper n lawIH transIH bs1 bs2 hb1 hb2 hn11 hn12
                hn21 hn22 hd1 hd2 hab hba]
      | .function l p =>
        obtain ⟨l2, p2, rfl⟩ := shape_function (equals_typeOf h).symm
        have hc := (equals_function_function l p l2 p2).mp h
        rw [hc.1, hc.2]
      | .library hd nm =>
        obtain ⟨hd2, nm2, rfl⟩ := shape_library (equals_typeOf h).symm
        have hc := (equals_library_library hd hd2 nm nm2).mp h
        simp only [bowl_value_hash]
        rw [hc.1]
      | .vector e1 =>
        obtain ⟨e2, rfl⟩ := shape_vector (equals_typeOf h).symm
        rw [equals_vector_vector] at h
        cases hna with
        | vector _ hne1 =>
          cases hnb with
          | vector _ hne2 =>
            have hb1 : sizeOf e1 < n := by simp at ha; omega
            have hb2 : sizeOf e2 < n := by simp at hb; omega
            simp only [bowl_value_hash]
            rw [elemsLaw_helper n lawIH e1 e2 hb1 hb2 hne1 hne2 h]
      | .exception c1 m1 =>
        obtain ⟨c2, m2, rfl⟩ := shape_exception (equals_typeOf h).symm
        rw [equals_exception_exception] at h
        cases hna with
        | exception _ _ hnc1 hnm1 =>
          cases hnb with
          | exception _ _ hnc2 hnm2 =>
            have hb1 : sizeOf c1 < n ∧ sizeOf m1 < n := by simp at ha; omega
            have hb2 : sizeOf c2 < n ∧ sizeOf m2 < n := by simp at hb; omega
            simp only [bowl_value_hash]
            rw [lawIH c1 c2 hb1.1 hb2.1 hnc1 hnc2 h.1,
              lawIH m1 m2 hb1.2 hb2.2 hnm1 hnm2 h.2]
    · intro a b c ha hb hc hna hnb hnc hab hbc
      match a with
      | .nil =>
        rw [equals_nil_left hab] at hbc
        exact hbc
      | .symbol s =>
        obtain ⟨y, rfl⟩ := shape_symbol (equals_typeOf hab).symm
        obtain ⟨z, rfl⟩ := shape_symbol (equals_typeOf hbc).symm
        rw [equals_symbol_symbol] at hab hbc ⊢
        exact hab.trans hbc
      | .string s =>
        obtain ⟨y, rfl⟩ := shape_string (equals_typeOf hab).symm
        obtain ⟨z, rfl⟩ := shape_string (equals_typeOf hbc).symm
        rw [equals_string_string] at hab hbc ⊢
        exact hab.trans hbc
      | .number x =>
        obtain ⟨y, rfl⟩ := shape_number (equals_typeOf hab).symm
        obtain ⟨z, rfl⟩ := shape_number (equals_typeOf hbc).symm
        rw [equals_number_number] at hab hbc ⊢
        exact hab.trans hbc
      | .boolean x =>
        obtain ⟨y, rfl⟩ := shape_boolean (equals_typeOf hab).symm
        obtain ⟨z, rfl⟩ := shape_boolean (equals_typeOf hbc).symm
        rw [equals_boolean_boolean] at hab hbc ⊢
        exact hab.trans hbc
      | .function l p =>
        obtain ⟨l2, p2, rfl⟩ := shape_function (equals_typeOf hab).symm
        obtain ⟨l3, p3, rfl⟩ := shape_function (equals_typeOf hbc).symm
        rw [equals_function_function] at hab hbc ⊢
        exact ⟨hab.1.trans hbc.1, hab.2.trans hbc.2⟩
      | .library hd nm =>
        obtain ⟨hd2, nm2, rfl⟩ := shape_library (equals_typeOf hab).symm
        obtain ⟨hd3, nm3, rfl⟩ := shape_library (equals_typeOf hbc).symm
        rw [equals_library_library] at hab hbc ⊢
        exact ⟨hab.1.trans hbc.1, hab.2.trans hbc.2⟩
      | .cons n1 h1 t1 =>
        rcases shape_list (equals_typeOf hab).symm with rfl | ⟨n2, h2, t2, rfl⟩
        · exact absurd (equals_nil_right hab) (by simp)
        rcases shape_list (equals_typeOf hbc).symm with rfl | ⟨n3, h3, t3, rfl⟩
        · exact absurd (equals_nil_right hbc) (by simp)
        rw [equals_cons_cons] at hab hbc ⊢
        cases hna with
        | cons _ _ _ hnh1 hnt1 =>
          cases hnb with
          | cons _ _ _ hnh2 hnt2 =>
            cases hnc with
            | cons _ _ _ hnh3 hnt3 =>
              have hb1 : sizeOf h1 < n ∧ sizeOf t1 < n := by simp at ha; omega
              have hb2 : sizeOf h2 < n ∧ sizeOf t2 < n := by simp at hb; omega
              have hb3 : sizeOf h3 < n ∧ sizeOf t3 < n := by simp at hc; omega
              exact ⟨transIH h1 h2 h3 hb1.1 hb2.1 hb3.1 hnh1 hnh2 hnh3
                  hab.1 hbc.1,
                transIH t1 t2 t3 hb1.2 hb2.2 hb3.2 hnt1 hnt2 hnt3
                  hab.2 hbc.2⟩
      | .map bs1 =>
        obtain ⟨bs2, rfl⟩ := shape_map (equals_typeOf hab).symm
        obtain ⟨bs3, rfl⟩ := shape_map (equals_typeOf hbc).symm
        rw [equals_map_map] at hab hbc ⊢
        rcases hab with rfl | ⟨h12, h21⟩
        · exact hbc
        rcases hbc with rfl | ⟨h23, h32⟩
        · exact Or.inr ⟨h12, h21⟩
        cases hna with
        | map _ hn11 hn12 hd1 =>
          cases hnb with
          | map _ hn21 hn22 hd2 =>
            cases hnc with
            | map _ hn31 hn32 hd3 =>
              have hb1 : sizeOf bs1 < n := by simp at ha; omega
              have hb2 : sizeOf bs2 < n := by simp at hb; omega
              have hb3 : sizeOf bs3 < n := by simp at hc; omega
              exact Or.inr
                ⟨subsetB_trans_helper n lawIH transIH bs1 bs2 bs3 hb1 hb2 hb3
                    hn11 hn12 hn21 hn22 hn31 hn32 h12 h23,
                  subsetB_trans_helper n lawIH transIH bs3 bs2 bs1 hb3 hb2 hb1
                    hn31 hn32 hn21 hn22 hn11 hn12 h32 h21⟩
      | .vector e1 =>
        obtain ⟨e2, rfl⟩ := shape_vector (equals_typeOf hab).symm
        obtain ⟨e3, rfl⟩ := shape_vector (equals_typeOf hbc).symm
        rw [equals_vector_vector] at hab hbc ⊢
        cases hna with
        | vector _ hne1 =>
          cases hnb with
          | vector _ hne2 =>
            cases hnc with
            | vector _ hne3 =>
              have hb1 : sizeOf e1 < n := by simp at ha; omega
              have hb2 : sizeOf e2 < n := by simp at hb; omega
              have hb3 : sizeOf e3 < n := by simp at hc; omega
              exact elemsTrans_helper n transIH e1 e2 e3 hb1 hb2 hb3
                hne1 hne2 hne3 hab hbc
      | .exception c1 m1 =>
        obtain ⟨c2, m2, rfl⟩ := shape_exception (equals_typeOf hab).symm
        obtain ⟨c3, m3, rfl⟩ := shape_exception (equals_typeOf hbc).symm
        rw [equals_exception_exception] at hab hbc ⊢
        cases hna with
        | exception _ _ hnc1 hnm1 =>
          cases hnb with
          | exception _ _ hnc2 hnm2 =>
            cases hnc with
            | exception _ _ hnc3 hnm3 =>
              have hb1 : sizeOf c1 < n ∧ sizeOf m1 < n := by simp at ha; omega
              have hb2 : sizeOf c2 < n ∧ sizeOf m2 < n := by simp at hb; omega
              have hb3 : sizeOf c3 < n ∧ sizeOf m3 < n := by simp at hc; omega
              exact ⟨transIH c1 c2 c3 hb1.1 hb2.1 hb3.1 hnc1 hnc2 hnc3
                  hab.1 hbc.1,
                transIH m1 m2 m3 hb1.2 hb2.2 hb3.2 hnm1 hnm2 hnm3
                  hab.2 hbc.2⟩

/-- The hash/equals law on well-formed values. -/
theorem hash_equals_law_helper {a b : Value} (hna : NoDupMaps a)
    (hnb : NoDupMaps b) (h : bowl_value_equals a b = true) :
    bowl_value_hash a = bowl_value_hash b :=
  (lawTrans_all (max (sizeOf a) (sizeOf b))).1 a b (by omega) (by omega) hna hnb h

/-- Transitivity of equality on well-formed values. -/
theorem equals_trans_helper {a b c : Value} (hna : NoDupMaps a)
    (hnb : NoDupMaps b) (hnc : NoDupMaps c)
    (hab : bowl_value_equals a b = true) (hbc : bowl_value_equals b c = true) :
    bowl_value_equals a c = true :=
  (lawTrans_all (max (sizeOf a) (max (sizeOf b) (sizeOf c)))).2 a b c
    (by omega) (by omega) (by omega) hna hnb hnc hab hbc

/-! ### Well-formedness implies distinct keys -/

theorem noDupMaps_of_wf : ∀ {v : Value}, WFValue v → NoDupMaps v := by
  intro v h
  induction h with
  | nil => exact NoDupMaps.nil
  | symbol bytes => exact NoDupMaps.symbol bytes
  | string bytes => exact NoDupMaps.string bytes
  | number bits => exact NoDupMaps.number bits
  | boolean b => exact NoDupMaps.boolean b
  | cons n h t _ _ iht1 iht2 => exact NoDupMaps.cons n h t iht1 iht2
  | map buckets _ _ _ _ hdk ih1 ih2 =>
    exact NoDupMaps.map buckets ih1 ih2 hdk
  | function l p => exact NoDupMaps.function l p
  | library h n => exact NoDupMaps.library h n
  | vector elements _ ih => exact NoDupMaps.vector elements ih
  | exception c m _ _ ihc ihm => exact NoDupMaps.exception c m ihc ihm

/-! ### Matches of a key in an entry list -/

/-- All entries whose key equals `k`, in order. -/
def matchesOf (l : List (Value × Value)) (k : Value) : List (Value × Value) :=
  l.filter (fun e => bowl_value_equals e.1 k)

theorem matchesOf_nil (k : Value) : matchesOf [] k = [] := rfl

theorem matchesOf_append (l1 l2 : List (Value × Value)) (k : Value) :
    matchesOf (l1 ++ l2) k = matchesOf l1 k ++ matchesOf l2 k :=
  List.filter_append _ _

theorem mem_matchesOf {l : List (Value × Value)} {k : Value} {e : Value × Value} :
    e ∈ matchesOf l k ↔ e ∈ l ∧ bowl_value_equals e.1 k = true := by
  simp [matchesOf, List.mem_filter]

theorem bucketFind_eq_head_matches (l : List (Value × Value)) (k : Value) :
    bucketFind l k = (matchesOf l k).head?.map Prod.snd := by
  induction l with
  | nil => rw [bucketFind]; rfl
  | cons e rest ih =>
    obtain ⟨k1, v1⟩ := e
    rw [bucketFind]
    by_cases h : bowl_value_equals k1 k = true
    · rw [if_pos h]
      simp [matchesOf, List.filter_cons, h]
    · rw [if_neg h]
      rw [Bool.not_eq_true] at h
      simp [matchesOf, List.filter_cons, h] at ih ⊢
      exact ih

theorem bucketRemove_matches (l : List (Value × Value)) (k : Value) :
    matchesOf (bucketRemove k l) k = (matchesOf l k).tail := by
  induction l with
  | nil => rfl
  | cons e rest ih =>
    obtain ⟨k1, v1⟩ := e
    rw [bucketRemove]
    by_cases h : bowl_value_equals k1 k = true
    · rw [if_pos h]
      simp [matchesOf, List.filter_cons, h]
    · rw [if_neg h]
      rw [Bool.not_eq_true] at h
      simp [matchesOf, List.filter_cons, h] at ih ⊢
      exact ih

theorem bucketReplace_matches (l : List (Value × Value)) (k v : Value) :
    matchesOf (bucketReplace k v l) k =
      (match matchesOf l k with
        | [] => ([] : List (Value × Value))
        | _ :: rest => (k, v) :: rest) := by
  induction l with
  | nil => rfl
  | cons e rest ih =>
    obtain ⟨k1, v1⟩ := e
    rw [bucketReplace]
    by_cases h : bowl_value_equals k1 k = true
    · rw [if_pos h]
      simp [matchesOf, List.filter_cons, h, equals_refl]
    · rw [if_neg h]
      rw [Bool.not_eq_true] at h
      simp only [matchesOf, List.filter_cons, h] at ih ⊢
      simpa using ih

theorem matchesOf_cons_self (l : List (Value × Value)) (k v : Value) :
    matchesOf ((k, v) :: l) k = (k, v) :: matchesOf l k := by
  simp [matchesOf, List.filter_cons, equals_refl]

theorem bucketReplace_length (l : List (Value × Value)) (k v : Value) :
    (bucketReplace k v l).length = l.length := by
  induction l with
  | nil => rfl
  | cons e rest ih =>
    obtain ⟨k1, v1⟩ := e
    rw [bucketReplace]
    by_cases h : bowl_value_equals k1 k = true
    · rw [if_pos h]; simp
    · rw [if_neg h]
      simp [ih]

/-! ### Decomposing a bucket array around one bucket -/

theorem flatten_decomp {α : Type} (bs : List (List α)) :
    ∀ i, i < bs.length →
      bs.flatten = (bs.take i).flatten ++ bs.getD i [] ++ (bs.drop (i + 1)).flatten := by
  induction bs with
  | nil => intro i hi; simp at hi
  | cons b rest ih =>
    intro i hi
    cases i with
    | zero => simp
    | succ j =>
      have hj : j < rest.length := by simp at hi; omega
      have := ih j hj
      simp only [List.flatten_cons, List.take_succ_cons, List.drop_succ_cons,
        List.getD_cons_succ]
      rw [this]
      simp [List.append_assoc]

theorem flatten_set_decomp {α : Type} (bs : List (List α)) :
    ∀ (i : Nat) (b' : List α), i < bs.length →
      (bs.set i b').flatten =
        (bs.take i).flatten ++ b' ++ (bs.drop (i + 1)).flatten := by
  induction bs with
  | nil => intro i b' hi; simp at hi
  | cons b rest ih =>
    intro i b' hi
    cases i with
    | zero => simp
    | succ j =>
      have hj : j < rest.length := by simp at hi; omega
      have := ih j b' hj
      simp only [List.set_cons_succ, List.flatten_cons, List.take_succ_cons,
        List.drop_succ_cons]
      rw [this]
      simp [List.append_assoc]

theorem getD_set_eq {α : Type} (bs : List (List α)) (i : Nat)
    (b' : List α) (hi : i < bs.length) :
    (bs.set i b').getD i [] = b' := by
  rw [List.getD_eq_getElem _ _ (by simpa using hi)]
  simp [List.getElem_set, hi]

theorem getD_set_ne {α : Type} (bs : List (List α)) (i j : Nat)
    (b' : List α) (hne : i ≠ j) :
    (bs.set i b').getD j [] = bs.getD j [] := by
  rcases lt_or_ge j bs.length with hj | hj
  · rw [List.getD_eq_getElem _ _ (by simpa using hj),
      List.getD_eq_getElem _ _ hj]
    simp [List.getElem_set, hne]
  · rw [List.getD_eq_default _ _ (by simpa using hj),
      List.getD_eq_default _ _ hj]

theorem getD_range_map {α : Type} (c : Nat) (f : Nat → List α) (j : Nat)
    (hj : j < c) :
    (((List.range c).map f).getD j []) = f j := by
  rw [List.getD_eq_getElem _ _ (by simpa using hj)]
  simp

theorem nextPow2_pos (n : Nat) : 0 < nextPow2 n := by
  induction n using Nat.strong_induction_on with
  | _ n ih =>
    rw [nextPow2]
    by_cases h : n ≤ 1
    · simp [h]
    · rw [if_neg h]
      have := ih ((n + 1) / 2) (by omega)
      omega

theorem bucketIndex_lt {cap : Nat} (hc : 0 < cap) (k : Value) :
    bucketIndex cap k < cap := Nat.mod_lt _ hc

/-! ### Confinement of key matches to one bucket -/

/-- All entries whose key equals `k` live in bucket `i` (there is no match in
any other bucket). -/
def ConfinedTo (bs : List (List (Value × Value))) (k : Value) (i : Nat) : Prop :=
  ∀ j, j < bs.length → j ≠ i → ∀ e ∈ bs.getD j [],
    bowl_value_equals e.1 k = false

theorem matchesOf_eq_nil_of_no_match {l : List (Value × Value)} {k : Value}
    (h : ∀ e ∈ l, bowl_value_equals e.1 k = false) : matchesOf l k = [] := by
  simp only [matchesOf, List.filter_eq_nil_iff]
  intro e he
  simp [h e he]

theorem mem_take_flatten {α : Type} {bs : List (List α)} {i : Nat} {e : α}
    (h : e ∈ (bs.take i).flatten) :
    ∃ j, j < i ∧ j < bs.length ∧ e ∈ bs.getD j [] := by
  obtain ⟨l, hl, hel⟩ := List.mem_flatten.mp h
  obtain ⟨j, hj, hget⟩ := List.getElem_of_mem hl
  have hj1 : j < i := by simp at hj; omega
  have hj2 : j < bs.length := by simp at hj; omega
  refine ⟨j, hj1, hj2, ?_⟩
  rw [List.getD_eq_getElem _ _ hj2]
  rw [List.getElem_take] at hget
  rw [hget]
  exact hel

theorem mem_drop_flatten {α : Type} {bs : List (List α)} {i : Nat} {e : α}
    (h : e ∈ (bs.drop (i + 1)).flatten) :
    ∃ j, i + 1 ≤ j ∧ j < bs.length ∧ e ∈ bs.getD j [] := by
  obtain ⟨l, hl, hel⟩ := List.mem_flatten.mp h
  obtain ⟨j, hj, hget⟩ := List.getElem_of_mem hl
  have hj2 : i + 1 + j < bs.length := by simp at hj; omega
  refine ⟨i + 1 + j, by omega, hj2, ?_⟩
  rw [List.getD_eq_getElem _ _ hj2]
  rw [List.getElem_drop] at hget
  rw [hget]
  exact hel

theorem matchesOf_flat_of_confined {bs : List (List (Value × Value))}
    {k : Value} {i : Nat} (hi : i < bs.length) (hc : ConfinedTo bs k i) :
    matchesOf (mapEntries bs) k = matchesOf (bs.getD i []) k := by
  unfold mapEntries
  rw [flatten_decomp bs i hi, matchesOf_append, matchesOf_append]
  have htake : matchesOf (bs.take i).flatten k = [] := by
    apply matchesOf_eq_nil_of_no_match
    intro e he
    obtain ⟨j, hj1, hj2, hmem⟩ := mem_take_flatten he
    exact hc j hj2 (by omega) e hmem
  have hdrop : matchesOf (bs.drop (i + 1)).flatten k = [] := by
    apply matchesOf_eq_nil_of_no_match
    intro e he
    obtain ⟨j, hj1, hj2, hmem⟩ := mem_drop_flatten he
    exact hc j hj2 (by omega) e hmem
  rw [htake, hdrop]
  simp

theorem confined_of_wf {buckets : List (List (Value × Value))} {k : Value}
    (hwf : WFValue (.map buckets)) (hnk : NoDupMaps k) :
    ConfinedTo buckets k (bucketIndex buckets.length k) := by
  cases hwf with
  | map _ hne hplace hw1 hw2 hdk =>
    intro j hj hji e he
    by_contra hcon
    rw [Bool.not_eq_false] at hcon
    have hentry : e ∈ mapEntries buckets := mem_getD_mem_entries he
    have hhash : bowl_value_hash e.1 = bowl_value_hash k :=
      hash_equals_law_helper (noDupMaps_of_wf (hw1 e hentry)) hnk hcon
    have hidx : bucketIndex buckets.length e.1 = j := hplace j hj e he
    rw [bucketIndex, hhash] at hidx
    apply hji
    rw [bucketIndex]
    omega

theorem matchesOf_le_one {entries : List (Value × Value)} {k : Value}
    (hdk : KeysPairwiseDistinct entries)
    (hn1 : ∀ e ∈ entries, NoDupMaps e.1) (hnk : NoDupMaps k) :
    (matchesOf entries k).length ≤ 1 := by
  rcases hm : matchesOf entries k with _ | ⟨e1, _ | ⟨e2, rest⟩⟩
  · simp
  · simp
  · exfalso
    have hpw : (matchesOf entries k).Pairwise
        (fun e1 e2 => bowl_value_equals e1.1 e2.1 = false) :=
      List.Pairwise.filter _ hdk
    rw [hm] at hpw
    have hrel := (List.pairwise_cons.mp hpw).1 e2 (List.mem_cons_self _ _)
    have he1 : e1 ∈ matchesOf entries k := by rw [hm]; simp
    have he2 : e2 ∈ matchesOf entries k := by rw [hm]; simp
    obtain ⟨he1m, he1k⟩ := mem_matchesOf.mp he1
    obtain ⟨he2m, he2k⟩ := mem_matchesOf.mp he2
    have htr : bowl_value_equals e1.1 e2.1 = true :=
      equals_trans_helper (hn1 _ he1m) hnk (hn1 _ he2m) he1k (equals_symm he2k)
    rw [htr] at hrel
    exact Bool.noConfusion hrel

/-! ### Rebuild lemmas -/

theorem matchesOf_flatten (L : List (List (Value × Value))) (k : Value) :
    matchesOf L.flatten k = (L.map (fun l => matchesOf l k)).flatten := by
  induction L with
  | nil => rfl
  | cons l rest ih =>
    rw [List.flatten_cons, matchesOf_append, List.map_cons, List.flatten_cons, ih]

theorem matchesOf_filter_comm (entries : List (Value × Value))
    (q : Value × Value → Bool) (k : Value) :
    matchesOf (entries.filter q) k = (matchesOf entries k).filter q := by
  unfold matchesOf
  induction entries with
  | nil => rfl
  | cons e rest ih =>
    by_cases hq : q e = true <;> by_cases hk : bowl_value_equals e.1 k = true <;>
      simp [List.filter_cons, hq, hk, ih]

theorem flatten_single {α : Type} (x : α) :
    ∀ (c i0 : Nat), i0 < c →
      (((List.range c).map (fun j => if i0 == j then [x] else [])).flatten) = [x] := by
  intro c
  induction c with
  | zero => intro i0 h; omega
  | succ c ih =>
    intro i0 h
    rw [List.range_succ, List.map_append, List.flatten_append]
    rcases Nat.lt_or_ge i0 c with hlt | hge
    · rw [ih i0 hlt]
      have hne : (i0 == c) = false := by
        simp only [beq_eq_false_iff_ne, ne_eq]
        omega
      simp [hne]
      omega
    · have hi0 : i0 = c := by omega
      subst hi0
      have hfirst : (((List.range i0).map
          (fun j => if i0 == j then [x] else [])).flatten) = [] := by
        rw [List.flatten_eq_nil_iff]
        intro l hl
        obtain ⟨j, hj, rfl⟩ := List.mem_map.mp hl
        have : (i0 == j) = false := by
          simp only [beq_eq_false_iff_ne, ne_eq]
          intro hji
          rw [List.mem_range] at hj
          omega
        rw [this]
        simp
      rw [hfirst]
      simp

theorem indicator_sum (c i0 : Nat) (h : i0 < c) :
    (((List.range c).map (fun j => if i0 == j then 1 else 0)).sum) = 1 := by
  induction c with
  | zero => omega
  | succ c ih =>
    rw [List.range_succ, List.map_append, List.sum_append]
    rcases Nat.lt_or_ge i0 c with hlt | hge
    · rw [ih hlt]
      have hne : (i0 == c) = false := by
        simp only [beq_eq_false_iff_ne, ne_eq]
        omega
      simp [hne]
      omega
    · have hi0 : i0 = c := by omega
      subst hi0
      have hfirst : (((List.range i0).map
          (fun j => if i0 == j then 1 else 0)).sum) = 0 := by
        rw [List.sum_eq_zero]
        intro a ha
        obtain ⟨j, hj, rfl⟩ := List.mem_map.mp ha
        have : (i0 == j) = false := by
          simp only [beq_eq_false_iff_ne, ne_eq]
          intro hji
          rw [List.mem_range] at hj
          omega
        rw [this]
        simp
      rw [hfirst]
      simp

theorem length_rebuild (cap : Nat) (entries : List (Value × Value))
    (hcap : 0 < cap) :
    (mapEntries (rebuildBuckets cap entries)).length = entries.length := by
  unfold mapEntries rebuildBuckets
  rw [List.length_flatten, List.map_map]
  induction entries with
  | nil =>
    rw [List.sum_eq_zero]
    · rfl
    · intro a ha
      obtain ⟨j, _, rfl⟩ := List.mem_map.mp ha
      simp
  | cons e rest ih =>
    have hmapeq : ((List.range cap).map
          (List.length ∘ fun j => ((e :: rest).filter
            (fun e' => bucketIndex cap e'.1 == j)))) =
        (List.range cap).map (fun j =>
          (if bucketIndex cap e.1 == j then 1 else 0) +
            (List.length ∘ fun j => (rest.filter
              (fun e' => bucketIndex cap e'.1 == j))) j) := by
      apply List.map_congr_left
      intro j _
      simp only [Function.comp_apply, List.filter_cons]
      by_cases hj : (bucketIndex cap e.1 == j) = true
      · rw [if_pos hj, hj]
        simp
        omega
      · rw [if_neg hj]
        simp only [Bool.not_eq_true] at hj
        rw [hj]
        simp
    rw [hmapeq, List.sum_map_add]
    have hind : (((List.range cap).map
        (fun j => if bucketIndex cap e.1 == j then 1 else 0)).sum) = 1 :=
      indicator_sum cap (bucketIndex cap e.1) (bucketIndex_lt hcap e.1)
    rw [hind, ih]
    simp [Nat.add_comm]

theorem length_rebuildBuckets (cap : Nat) (entries : List (Value × Value)) :
    (rebuildBuckets cap entries).length = cap := by
  simp [rebuildBuckets]

theorem rebuild_matches {cap : Nat} (entries : List (Value × Value))
    {k v : Value} (hcap : 0 < cap) (hm : matchesOf entries k = [(k, v)]) :
    matchesOf (mapEntries (rebuildBuckets cap entries)) k = [(k, v)] := by
  unfold mapEntries rebuildBuckets
  rw [matchesOf_flatten, List.map_map]
  have hpt : ((List.range cap).map
        ((fun l => matchesOf l k) ∘
          fun i => entries.filter (fun e => bucketIndex cap e.1 == i))) =
      (List.range cap).map
        (fun j => if bucketIndex cap k == j then [(k, v)] else []) := by
    apply List.map_congr_left
    intro j _
    simp only [Function.comp_apply]
    rw [matchesOf_filter_comm, hm]
    rw [List.filter_cons]
    dsimp only
    by_cases hj : (bucketIndex cap k == j) = true
    · rw [if_pos hj, if_pos hj]
      simp [matchesOf]
    · rw [if_neg hj, if_neg hj]
      simp [matchesOf]
  rw [hpt]
  exact flatten_single (k, v) cap (bucketIndex cap k) (bucketIndex_lt hcap k)

theorem rebuild_confined {cap : Nat} (entries : List (Value × Value))
    {k v : Value} (hm : matchesOf entries k = [(k, v)]) :
    ConfinedTo (rebuildBuckets cap entries) k (bucketIndex cap k) := by
  intro j hj hne e he
  rw [length_rebuildBuckets] at hj
  rw [rebuildBuckets, getD_range_map _ _ _ hj] at he
  obtain ⟨hmem, hidx⟩ := List.mem_filter.mp he
  by_contra hcon
  rw [Bool.not_eq_false] at hcon
  have hsing : e ∈ matchesOf entries k := mem_matchesOf.mpr ⟨hmem, hcon⟩
  rw [hm, List.mem_singleton] at hsing
  subst hsing
  rw [beq_iff_eq] at hidx
  dsimp only at hidx
  exact hne hidx.symm

theorem bucketFor_eq (bs : List (List (Value × Value))) (k : Value) :
    bucketFor bs k = bs.getD (bucketIndex bs.length k) [] := rfl

theorem length_flatten_set {α : Type} (bs : List (List α)) (i : Nat)
    (b' : List α) (hi : i < bs.length) :
    (bs.set i b').flatten.length + (bs.getD i []).length =
      bs.flatten.length + b'.length := by
  rw [flatten_set_decomp bs i b' hi, flatten_decomp bs i hi]
  simp only [List.length_append]
  omega

theorem matches_nil_of_find_none {bucket : List (Value × Value)} {k : Value}
    (h : (bucketFind bucket k).isSome = false) : matchesOf bucket k = [] := by
  rw [bucketFind_eq_head_matches] at h
  rcases hm : matchesOf bucket k with _ | ⟨e, rest⟩
  · rfl
  · rw [hm] at h
    simp at h

theorem putBuckets_spec {buckets : List (List (Value × Value))} (k v : Value)
    (hwf : WFValue (.map buckets)) (hnk : NoDupMaps k) :
    (putBuckets buckets k v).length = buckets.length ∧
    matchesOf (mapEntries (putBuckets buckets k v)) k = [(k, v)] ∧
    ConfinedTo (putBuckets buckets k v) k (bucketIndex buckets.length k) ∧
    (mapEntries (putBuckets buckets k v)).length =
      (if (matchesOf (mapEntries buckets) k).length = 0
        then (mapEntries buckets).length + 1
        else (mapEntries buckets).length) := by
  have hne : buckets ≠ [] := by cases hwf with | map _ h _ _ _ _ => exact h
  have hcap : 0 < buckets.length := List.length_pos.mpr hne
  have hi : bucketIndex buckets.length k < buckets.length := bucketIndex_lt hcap k
  have hconf := confined_of_wf hwf hnk
  have hflat := matchesOf_flat_of_confined hi hconf
  have hdk : KeysPairwiseDistinct (mapEntries buckets) := by
    cases hwf with | map _ _ _ _ _ h => exact h
  have hw1 : ∀ e ∈ mapEntries buckets, NoDupMaps e.1 := by
    cases hwf with
    | map _ _ _ h _ _ => exact fun e he => noDupMaps_of_wf (h e he)
  have hle1 := matchesOf_le_one hdk hw1 hnk
  by_cases hfind :
      (bucketFind (buckets.getD (bucketIndex buckets.length k) []) k).isSome = true
  · -- the key is present in its bucket: the pair is replaced
    have hput : putBuckets buckets k v =
        buckets.set (bucketIndex buckets.length k)
          (bucketReplace k v
            (buckets.getD (bucketIndex buckets.length k) [])) := by
      simp only [putBuckets, bucketFor]
      rw [if_pos hfind]
    obtain ⟨e0, hm⟩ : ∃ e0, matchesOf
        (buckets.getD (bucketIndex buckets.length k) []) k = [e0] := by
      rcases hm : matchesOf (buckets.getD (bucketIndex buckets.length k) []) k
        with _ | ⟨e0, rest⟩
      · rw [bucketFind_eq_head_matches, hm] at hfind
        simp at hfind
      · have hlen : (matchesOf
            (buckets.getD (bucketIndex buckets.length k) []) k).length ≤ 1 := by
          rw [← hflat]
          exact hle1
        rw [hm] at hlen
        simp at hlen
        rw [hlen]
        exact ⟨e0, rfl⟩
    have hlen_set : (putBuckets buckets k v).length = buckets.length := by
      rw [hput, List.length_set]
    have hc1 : ConfinedTo (putBuckets buckets k v) k
        (bucketIndex buckets.length k) := by
      intro j hj hne' e he
      rw [hlen_set] at hj
      rw [hput, getD_set_ne _ _ _ _ (Ne.symm hne')] at he
      exact hconf j hj hne' e he
    have hgetD : (putBuckets buckets k v).getD (bucketIndex buckets.length k) [] =
        bucketReplace k v (buckets.getD (bucketIndex buckets.length k) []) := by
      rw [hput, getD_set_eq _ _ _ hi]
    have hm1 : matchesOf (mapEntries (putBuckets buckets k v)) k = [(k, v)] := by
      rw [matchesOf_flat_of_confined (by rw [hlen_set]; exact hi) hc1, hgetD,
        bucketReplace_matches, hm]
    refine ⟨hlen_set, hm1, hc1, ?_⟩
    rw [if_neg (by rw [hflat, hm]; simp)]
    have hdecomp := length_flatten_set buckets (bucketIndex buckets.length k)
      (bucketReplace k v (buckets.getD (bucketIndex buckets.length k) [])) hi
    have hrl := bucketReplace_length
      (buckets.getD (bucketIndex buckets.length k) []) k v
    unfold mapEntries
    rw [hput]
    omega
  · -- the key is absent from its bucket: the pair is prepended
    have hput : putBuckets buckets k v =
        buckets.set (bucketIndex buckets.length k)
          ((k, v) :: buckets.getD (bucketIndex buckets.length k) []) := by
      simp only [putBuckets, bucketFor]
      rw [if_neg hfind]
    have hmB : matchesOf (buckets.getD (bucketIndex buckets.length k) []) k = [] :=
      matches_nil_of_find_none (by rw [Bool.not_eq_true] at hfind; exact hfind)
    have hlen_set : (putBuckets buckets k v).length = buckets.length := by
      rw [hput, List.length_set]
    have hc1 : ConfinedTo (putBuckets buckets k v) k
        (bucketIndex buckets.length k) := by
      intro j hj hne' e he
      rw [hlen_set] at hj
      rw [hput, getD_set_ne _ _ _ _ (Ne.symm hne')] at he
      exact hconf j hj hne' e he
    have hgetD : (putBuckets buckets k v).getD (bucketIndex buckets.length k) [] =
        (k, v) :: buckets.getD (bucketIndex buckets.length k) [] := by
      rw [hput, getD_set_eq _ _ _ hi]
    have hm1 : matchesOf (mapEntries (putBuckets buckets k v)) k = [(k, v)] := by
      rw [matchesOf_flat_of_confined (by rw [hlen_set]; exact hi) hc1, hgetD,
        matchesOf_cons_self, hmB]
    refine ⟨hlen_set, hm1, hc1, ?_⟩
    rw [if_pos (by rw [hflat, hmB]; rfl)]
    have hdecomp := length_flatten_set buckets (bucketIndex buckets.length k)
      ((k, v) :: buckets.getD (bucketIndex buckets.length k) []) hi
    simp only [List.length_cons] at hdecomp
    unfold mapEntries
    rw [hput]
    omega

/-- The full characterisation of a successful `bowl_map_put` on a well-formed
map: the result is a non-empty map whose only entry matching `k` (by
`bowl_value_equals`) is the fresh pair `(k, v)`, confined to the bucket `k`
hashes to; the new `length` grows by one exactly when no entry of the input
matched `k`. -/
theorem bowl_map_put_spec {buckets : List (List (Value × Value))} (k v : Value)
    (hwf : WFValue (.map buckets)) (hnk : NoDupMaps k) :
    ∃ buckets',
      bowl_map_put (.map buckets) k v = .map buckets' ∧
      0 < buckets'.length ∧
      matchesOf (mapEntries buckets') k = [(k, v)] ∧
      ConfinedTo buckets' k (bucketIndex buckets'.length k) ∧
      (mapEntries buckets').length =
        (if (matchesOf (mapEntries buckets) k).length = 0
          then (mapEntries buckets).length + 1
          else (mapEntries buckets).length) := by
  obtain ⟨hlen1, hm1, hc1, hcount1⟩ := putBuckets_spec k v hwf hnk
  have hcap : 0 < buckets.length :=
    List.length_pos.mpr (by cases hwf with | map _ h _ _ _ _ => exact h)
  have hput : bowl_map_put (.map buckets) k v =
      (if 4 * (mapEntries (putBuckets buckets k v)).length > 3 * buckets.length
        then Value.map (rebuildBuckets
          (nextPow2 (2 * (mapEntries (putBuckets buckets k v)).length))
          (mapEntries (putBuckets buckets k v)))
        else Value.map (putBuckets buckets k v)) := by
    simp only [bowl_map_put]
  by_cases hgrow :
      4 * (mapEntries (putBuckets buckets k v)).length > 3 * buckets.length
  · refine ⟨rebuildBuckets
      (nextPow2 (2 * (mapEntries (putBuckets buckets k v)).length))
      (mapEntries (putBuckets buckets k v)), ?_, ?_, ?_, ?_, ?_⟩
    · rw [hput, if_pos hgrow]
    · rw [length_rebuildBuckets]
      exact nextPow2_pos _
    · exact rebuild_matches _ (nextPow2_pos _) hm1
    · rw [length_rebuildBuckets]
      exact rebuild_confined _ hm1
    · rw [length_rebuild _ _ (nextPow2_pos _)]
      exact hcount1
  · refine ⟨putBuckets buckets k v, ?_, ?_, hm1, ?_, hcount1⟩
    · rw [hput, if_neg hgrow]
    · rw [hlen1]; exact hcap
    · rw [hlen1]; exact hc1

/-- Looking up `k` in a map whose only `k`-match is `(k, v)` yields `v`. -/
theorem get_of_single_match {buckets' : List (List (Value × Value))}
    {k v : Value} (d : Value) (hpos : 0 < buckets'.length)
    (hconf : ConfinedTo buckets' k (bucketIndex buckets'.length k))
    (hm : matchesOf (mapEntries buckets') k = [(k, v)]) :
    bowl_map_get_or_else (.map buckets') k d = v := by
  have hi := bucketIndex_lt hpos k
  have hbucket : matchesOf (buckets'.getD (bucketIndex buckets'.length k) []) k =
      [(k, v)] := by
    rw [← matchesOf_flat_of_confined hi hconf, hm]
  simp only [bowl_map_get_or_else, bucketFor_eq]
  rw [bucketFind_eq_head_matches, hbucket]
  rfl

/-- Looking up `k` in a map with no `k`-match yields the default. -/
theorem get_default_of_no_match {buckets' : List (List (Value × Value))}
    {k : Value} (d : Value) (hpos : 0 < buckets'.length)
    (hconf : ConfinedTo buckets' k (bucketIndex buckets'.length k))
    (hm : matchesOf (mapEntries buckets') k = []) :
    bowl_map_get_or_else (.map buckets') k d = d := by
  have hi := bucketIndex_lt hpos k
  have hbucket : matchesOf (buckets'.getD (bucketIndex buckets'.length k) []) k =
      [] := by
    rw [← matchesOf_flat_of_confined hi hconf, hm]
  simp only [bowl_map_get_or_else, bucketFor_eq]
  rw [bucketFind_eq_head_matches, hbucket]
  rfl

/-- Deleting `k` from a map whose only `k`-match is `(k, v)` removes that
match: the result is a map of the same capacity with no `k`-match left. -/
theorem delete_of_single_match {buckets' : List (List (Value × Value))}
    {k v : Value} (hpos : 0 < buckets'.length)
    (hconf : ConfinedTo buckets' k (bucketIndex buckets'.length k))
    (hm : matchesOf (mapEntries buckets') k = [(k, v)]) :
    ∃ buckets2,
      bowl_map_delete (.map buckets') k = .map buckets2 ∧
      0 < buckets2.length ∧
      ConfinedTo buckets2 k (bucketIndex buckets2.length k) ∧
      matchesOf (mapEntries buckets2) k = [] := by
  have hi := bucketIndex_lt hpos k
  have hbucket : matchesOf (buckets'.getD (bucketIndex buckets'.length k) []) k =
      [(k, v)] := by
    rw [← matchesOf_flat_of_confined hi hconf, hm]
  have hfind : (bucketFind (buckets'.getD (bucketIndex buckets'.length k) []) k).isSome =
      true := by
    rw [bucketFind_eq_head_matches, hbucket]
    rfl
  have hdel : bowl_map_delete (.map buckets') k =
      .map (buckets'.set (bucketIndex buckets'.length k)
        (bucketRemove k (buckets'.getD (bucketIndex buckets'.length k) []))) := by
    simp only [bowl_map_delete]
    rw [if_pos hfind]
  have hlen2 : (buckets'.set (bucketIndex buckets'.length k)
      (bucketRemove k (buckets'.getD (bucketIndex buckets'.length k) []))).length =
      buckets'.length := List.length_set _ _ _
  have hc2 : ConfinedTo (buckets'.set (bucketIndex buckets'.length k)
      (bucketRemove k (buckets'.getD (bucketIndex buckets'.length k) []))) k
      (bucketIndex buckets'.length k) := by
    intro j hj hne' e he
    rw [hlen2] at hj
    rw [getD_set_ne _ _ _ _ (Ne.symm hne')] at he
    exact hconf j hj hne' e he
  refine ⟨_, hdel, ?_, ?_, ?_⟩
  · rw [hlen2]; exact hpos
  · simp only [List.length_set]
    exact hc2
  · rw [matchesOf_flat_of_confined (by rw [hlen2]; exact hi) hc2,
      getD_set_eq _ _ _ hi, bucketRemove_matches, hbucket]
    rfl

theorem matchesOf_eq_nil_iff (l : List (Value × Value)) (k : Value) :
    matchesOf l k = [] ↔ ∀ e ∈ l, bowl_value_equals e.1 k = false := by
  constructor
  · intro h e he
    by_contra hc
    rw [Bool.not_eq_false] at hc
    have : e ∈ matchesOf l k := mem_matchesOf.mpr ⟨he, hc⟩
    rw [h] at this
    simp at this
  · exact matchesOf_eq_nil_of_no_match

/-! ### List reversal -/

theorem toList_bowl_list (h t : Value) : toList (bowl_list h t) = h :: toList t := by
  rfl

theorem toList_reverseOnto : ∀ {xs : Value}, IsList xs → ∀ (acc : Value),
    toList (reverseOnto xs acc) = (toList xs).reverse ++ toList acc := by
  intro xs h
  induction h with
  | nil => intro acc; simp [reverseOnto, toList]
  | cons hd t ht ih =>
    intro acc
    rw [reverseOnto, ih (bowl_list hd acc), toList_bowl_list]
    simp [toList]

theorem isList_reverseOnto : ∀ {xs : Value}, IsList xs → ∀ {acc : Value},
    IsList acc → IsList (reverseOnto xs acc) := by
  intro xs h
  induction h with
  | nil => intro acc hacc; simpa [reverseOnto] using hacc
  | cons hd t ht ih =>
    intro acc hacc
    rw [reverseOnto]
    exact ih (IsList.cons hd acc hacc)

theorem toList_length : ∀ {xs : Value}, IsList xs →
    bowl_value_length xs = (toList xs).length := by
  intro xs h
  induction h with
  | nil => rfl
  | cons hd t ht ih =>
    show 1 + bowl_value_length t = (toList (.cons (1 + bowl_value_length t) hd t)).length
    simp [toList, ih]
    omega

theorem toList_inj : ∀ {x : Value}, IsList x → ∀ {y : Value}, IsList y →
    toList x = toList y → x = y := by
  intro x hx
  induction hx with
  | nil =>
    intro y hy h
    cases hy with
    | nil => rfl
    | cons hd t ht => simp [toList] at h
  | cons hd t ht ih =>
    intro y hy h
    cases hy with
    | nil => simp [toList] at h
    | cons hd2 t2 ht2 =>
      simp only [toList, List.cons.injEq] at h
      obtain ⟨rfl, hteq⟩ := h
      rw [ih ht2 hteq]

theorem bowl_list_reverse_isList {xs : Value} (h : IsList xs) :
    IsList (bowl_list_reverse xs) :=
  isList_reverseOnto h IsList.nil

theorem toList_bowl_list_reverse {xs : Value} (h : IsList xs) :
    toList (bowl_list_reverse xs) = (toList xs).reverse := by
  unfold bowl_list_reverse
  rw [toList_reverseOnto h .nil]
  simp [toList]

/-! ### Concrete values used by counterexamples and witnesses -/

/-- A key whose hash is odd, so its bucket in a two-bucket map is bucket 1. -/
def cexKey : Value := .boolean true

/-- An ill-formed two-bucket map: the entry for `cexKey` sits in bucket 0
although `cexKey` hashes to bucket 1. -/
def cexMisplacedMap : Value := .map [[(cexKey, .boolean false)], []]

/-- A map with a duplicated key binding (ill-formed: `bowl_map_put` never
creates such a map). -/
def cexDupA : Value :=
  .map [[(.boolean true, .nil), (.boolean true, .nil), (.boolean false, .nil)]]

/-- A second duplicated-key map with the same bindings as `cexDupA` but a
different multiset of pairs. -/
def cexDupB : Value :=
  .map [[(.boolean true, .nil), (.boolean false, .nil), (.boolean false, .nil)]]

/-- A concrete predecessor frame for the stack-frame counterexample. -/
def cexPredFrame : BowlStackFrame := BOWL_EMPTY_STACK_FRAME none

/-! ### The claims -/

/-- C1: if an allocation request would overflow the from-space, the garbage
collector (the state transformer `gc`) is invoked and the request is retried
exactly once against the collected heap; if that retry also fails, the result
is a failure carrying the preallocated `bowl_exception_out_of_heap` singleton
and the heap is left exactly as the collection produced it (no new value is
allocated on the error path). -/
theorem claim_C1_allocate_retry_once (gc : Heap → Heap) (h : Heap)
    (type : BowlValueType) (additional : Nat)
    (hov : h.capacity < h.used + (headerSize + variantSize type + additional)) :
    bowl_allocate gc h type additional =
      (if (gc h).used + (headerSize + variantSize type + additional) ≤
          (gc h).capacity
        then ({ capacity := (gc h).capacity,
                used := (gc h).used +
                  (headerSize + variantSize type + additional) },
              AllocResult.success (gc h).used)
        else (gc h, AllocResult.failure bowl_exception_out_of_heap)) := by
  unfold bowl_allocate
  rw [if_neg (by omega)]

/-- Witness for C1 at a concrete full heap whose collector frees nothing. -/
theorem claim_C1_witness :
    (Heap.mk 10 10).capacity < (Heap.mk 10 10).used +
      (headerSize + variantSize BowlValueType.BowlBooleanValue + 0) ∧
    bowl_allocate (fun h => h) (Heap.mk 10 10) BowlValueType.BowlBooleanValue 0 =
      (Heap.mk 10 10, AllocResult.failure bowl_exception_out_of_heap) := by
  refine ⟨by decide, ?_⟩
  rw [claim_C1_allocate_retry_once (fun h => h) (Heap.mk 10 10)
    BowlValueType.BowlBooleanValue 0 (by decide)]
  rfl

/-- C2 as stated is false: two ill-formed maps that duplicate a key binding
compare equal under `bowl_value_equals` (each entry of either map is found in
the other with an equal value, and the lengths agree) yet have different
hashes (their entry multisets differ). -/
theorem claim_C2_counterexample :
    bowl_value_equals cexDupA cexDupB = true ∧
    bowl_value_hash cexDupA ≠ bowl_value_hash cexDupB := by
  constructor
  · simp [cexDupA, cexDupB, bowl_value_equals, structuralEquals, ident,
      identBuckets, identBucket, subsetB, entriesAll, findPair, mapEntries,
      bucketFor, bucketIndex, Nat.mod_one]
  · decide

/-- C2 (amended): on well-formed values — every map cell has pairwise
distinct keys, as guaranteed for maps built by `bowl_map_put` — equal values
have equal hashes: `bowl_value_equals a b = true` implies
`bowl_value_hash a = bowl_value_hash b`. -/
theorem claim_C2_hash_equals_law (a b : Value) (hna : NoDupMaps a)
    (hnb : NoDupMaps b) (h : bowl_value_equals a b = true) :
    bowl_value_hash a = bowl_value_hash b :=
  hash_equals_law_helper hna hnb h

/-- Witness for C2: `+0` and `-0` are equal numbers with equal hashes. -/
theorem claim_C2_witness :
    bowl_value_equals (Value.number 0) (Value.number 9223372036854775808) = true ∧
    bowl_value_hash (Value.number 0) =
      bowl_value_hash (Value.number 9223372036854775808) :=
  ⟨by simp [bowl_value_equals, structuralEquals, ident, canonBits],
    claim_C2_hash_equals_law _ _ (NoDupMaps.number 0) (NoDupMaps.number _)
      (by simp [bowl_value_equals, structuralEquals, ident, canonBits])⟩

/-- C3 as stated is false: starting from an ill-formed map whose only entry
for the key sits in the wrong bucket, `bowl_map_put` prepends a fresh pair
into the correct bucket and the subsequent growth rehash places the stale
pair in front of the fresh one, so the lookup returns the stale value. -/
theorem claim_C3_counterexample :
    bowl_map_get_or_else (bowl_map_put cexMisplacedMap cexKey (.boolean true))
      cexKey bowl_sentinel_value ≠ Value.boolean true := by
  have heval : bowl_map_get_or_else
      (bowl_map_put cexMisplacedMap cexKey (.boolean true)) cexKey
      bowl_sentinel_value = Value.boolean false := by
    simp [cexKey, cexMisplacedMap, bowl_map_put, putBuckets,
      bowl_map_get_or_else, bucketFind, bucketFor, bucketIndex, mapEntries,
      bucketReplace, rebuildBuckets, nextPow2, bowl_value_hash, mix2, U64,
      bowl_value_equals, structuralEquals, ident, List.filter]
  rw [heval]
  simp

/-- C3 (amended): on a well-formed map (at least one bucket, entries in the
buckets their keys hash to, pairwise distinct keys) and a well-formed key,
`bowl_map_get_or_else (bowl_map_put m k v) k d = v`, and the length of the
map returned by `bowl_map_put` is `m.length + 1` if no entry of `m` has a key
equal to `k` and `m.length` otherwise. -/
theorem claim_C3_put_get (buckets : List (List (Value × Value)))
    (k v d : Value) (hwf : WFValue (.map buckets)) (hnk : NoDupMaps k) :
    bowl_map_get_or_else (bowl_map_put (.map buckets) k v) k d = v ∧
    ((∀ e ∈ mapEntries buckets, bowl_value_equals e.1 k = false) →
      bowl_value_length (bowl_map_put (.map buckets) k v) =
        bowl_value_length (.map buckets) + 1) ∧
    ((∃ e ∈ mapEntries buckets, bowl_value_equals e.1 k = true) →
      bowl_value_length (bowl_map_put (.map buckets) k v) =
        bowl_value_length (.map buckets)) := by
  obtain ⟨buckets', heq, hpos, hm, hconf, hlen⟩ := bowl_map_put_spec k v hwf hnk
  refine ⟨?_, ?_, ?_⟩
  · rw [heq]
    exact get_of_single_match d hpos hconf hm
  · intro habs
    rw [heq]
    show (mapEntries buckets').length = (mapEntries buckets).length + 1
    rw [hlen, if_pos]
    rw [(matchesOf_eq_nil_iff _ _).mpr habs]
    rfl
  · rintro ⟨e, hemem, he⟩
    rw [heq]
    show (mapEntries buckets').length = (mapEntries buckets).length
    rw [hlen, if_neg]
    intro hzero
    have : e ∈ matchesOf (mapEntries buckets) k := mem_matchesOf.mpr ⟨hemem, he⟩
    rw [List.length_eq_zero.mp hzero] at this
    simp at this

/-- Witness for C3 on the empty one-bucket map. -/
theorem claim_C3_witness :
    bowl_map_get_or_else (bowl_map_put (.map [[]]) (.boolean true) Value.nil)
      (.boolean true) bowl_sentinel_value = Value.nil ∧
    bowl_value_length (bowl_map_put (.map [[]]) (.boolean true) Value.nil) = 1 := by
  have hwf : WFValue (.map ([[]] : List (List (Value × Value)))) := by
    refine WFValue.map _ (by simp) ?_ ?_ ?_ ?_
    · intro i hi e he
      simp at hi
      subst hi
      simp at he
    · intro e he
      simp [mapEntries] at he
    · intro e he
      simp [mapEntries] at he
    · simp [KeysPairwiseDistinct, mapEntries]
  obtain ⟨h1, h2, _⟩ := claim_C3_put_get [[]] (.boolean true) Value.nil
    bowl_sentinel_value hwf (NoDupMaps.boolean true)
  refine ⟨h1, ?_⟩
  have habs : ∀ e ∈ mapEntries ([[]] : List (List (Value × Value))),
      bowl_value_equals e.1 (Value.boolean true) = false := by
    intro e he
    simp [mapEntries] at he
  have := h2 habs
  rw [this]
  rfl

/-- C4 as stated is false: starting from the same ill-formed map as the C3
counterexample, after `bowl_map_put` and the growth rehash both the stale and
the fresh pair sit in one bucket; `bowl_map_delete` removes only the first
(stale) one, so the lookup still finds the fresh value instead of the
sentinel. -/
theorem claim_C4_counterexample :
    bowl_map_get_or_else
      (bowl_map_delete (bowl_map_put cexMisplacedMap cexKey (.boolean true))
        cexKey) cexKey bowl_sentinel_value ≠ bowl_sentinel_value := by
  have heval : bowl_map_get_or_else
      (bowl_map_delete (bowl_map_put cexMisplacedMap cexKey (.boolean true))
        cexKey) cexKey bowl_sentinel_value = Value.boolean true := by
    simp [cexKey, cexMisplacedMap, bowl_map_put, putBuckets, bowl_map_delete,
      bowl_map_get_or_else, bucketFind, bucketFor, bucketIndex, mapEntries,
      bucketReplace, bucketRemove, rebuildBuckets, nextPow2, bowl_value_hash,
      mix2, U64, bowl_value_equals, structuralEquals, ident, List.filter]
  rw [heval]
  simp [bowl_sentinel_value]

/-- C4 (amended): on a well-formed map and key,
`bowl_map_get_or_else (bowl_map_delete (bowl_map_put m k v) k) k sentinel`
returns the sentinel; and for every map and key with no entry whose key
equals the key (by `bowl_value_equals`), `bowl_map_delete` returns the input
map unchanged. -/
theorem claim_C4_delete_put_get (buckets : List (List (Value × Value)))
    (k v : Value) (hwf : WFValue (.map buckets)) (hnk : NoDupMaps k) :
    bowl_map_get_or_else
      (bowl_map_delete (bowl_map_put (.map buckets) k v) k) k
      bowl_sentinel_value = bowl_sentinel_value ∧
    (∀ (bs2 : List (List (Value × Value))) (k2 : Value),
      (∀ e ∈ mapEntries bs2, bowl_value_equals e.1 k2 = false) →
      bowl_map_delete (.map bs2) k2 = .map bs2) := by
  constructor
  · obtain ⟨buckets', heq, hpos, hm, hconf, _⟩ := bowl_map_put_spec k v hwf hnk
    rw [heq]
    obtain ⟨bs2, hdeq, hpos2, hconf2, hm2⟩ := delete_of_single_match hpos hconf hm
    rw [hdeq]
    exact get_default_of_no_match _ hpos2 hconf2 hm2
  · intro bs2 k2 habs
    have hfind : bucketFind (bs2.getD (bucketIndex bs2.length k2) []) k2 =
        none := by
      rw [bucketFind_eq_none_iff]
      intro e he
      exact habs e (mem_getD_mem_entries he)
    simp only [bowl_map_delete]
    rw [hfind]
    rfl

/-- Witness for C4 on the empty one-bucket map. -/
theorem claim_C4_witness :
    bowl_map_get_or_else
      (bowl_map_delete (bowl_map_put (.map [[]]) (.boolean true) Value.nil)
        (.boolean true)) (.boolean true) bowl_sentinel_value =
      bowl_sentinel_value ∧
    bowl_map_delete (.map [[], []]) (.boolean false) = .map [[], []] := by
  have hwf : WFValue (.map ([[]] : List (List (Value × Value)))) := by
    refine WFValue.map _ (by simp) ?_ ?_ ?_ ?_
    · intro i hi e he
      simp at hi
      subst hi
      simp at he
    · intro e he
      simp [mapEntries] at he
    · intro e he
      simp [mapEntries] at he
    · simp [KeysPairwiseDistinct, mapEntries]
  obtain ⟨h1, h2⟩ := claim_C4_delete_put_get [[]] (.boolean true) Value.nil hwf
    (NoDupMaps.boolean true)
  refine ⟨h1, ?_⟩
  apply h2
  intro e he
  simp [mapEntries] at he

/-- C5: for every well-formed list (the empty list being the null
reference), reversing twice gives back a structurally equal list, and
reversal preserves the stored `length`. -/
theorem claim_C5_reverse_involution (xs : Value) (h : IsList xs) :
    bowl_list_reverse (bowl_list_reverse xs) = xs ∧
    bowl_value_length (bowl_list_reverse xs) = bowl_value_length xs := by
  have h1 := bowl_list_reverse_isList h
  have h2 := bowl_list_reverse_isList h1
  constructor
  · apply toList_inj h2 h
    rw [toList_bowl_list_reverse h1, toList_bowl_list_reverse h,
      List.reverse_reverse]
  · rw [toList_length h1, toList_bowl_list_reverse h, List.length_reverse,
      ← toList_length h]

/-- Witness for C5 on the two-element list `[1, 2]`. -/
theorem claim_C5_witness :
    bowl_list_reverse (bowl_list_reverse
      (bowl_list (.number 1) (bowl_list (.number 2) .nil))) =
      bowl_list (.number 1) (bowl_list (.number 2) .nil) ∧
    bowl_value_length (bowl_list_reverse
      (bowl_list (.number 1) (bowl_list (.number 2) .nil))) =
      bowl_value_length (bowl_list (.number 1) (bowl_list (.number 2) .nil)) :=
  claim_C5_reverse_involution _
    (IsList.cons _ _ (IsList.cons _ _ IsList.nil))

/-- C6: popping from an empty datastack returns the stack-underflow
exception, whose message contains the popping function's name, and leaves the
datastack slot unchanged; popping from a non-empty datastack stores the head
in the target variable and replaces the datastack with the tail. -/
theorem claim_C6_stack_pop (fname : List Char) (n : Nat) (h t : Value) :
    BOWL_STACK_POP_VALUE fname Value.nil =
      (PopResult.underflow (underflowMessage fname), Value.nil) ∧
    SegIn fname (underflowMessage fname) ∧
    BOWL_STACK_POP_VALUE fname (Value.cons n h t) = (PopResult.ok h, t) := by
  refine ⟨rfl, ?_, rfl⟩
  refine ⟨("stack underflow in function ".toList) ++ [quoteChar], [quoteChar], ?_⟩
  simp [underflowMessage, List.append_assoc]

/-- C7: the type assertion fails — returning the formatted exception naming
the function, the expected type name and the observed type name — exactly
when the check fails; a null value passes exactly when the expected type is
the list type, and a non-null value passes exactly when its `type` field is
the expected type. -/
theorem claim_C7_assert_type (fname : List Char) (v : Value)
    (t : BowlValueType) :
    (BOWL_ASSERT_TYPE fname v t = none ↔
      (if isNil v = true then t = BowlValueType.BowlListValue
        else typeOf v = t)) ∧
    (∀ msg, BOWL_ASSERT_TYPE fname v t = some msg →
      SegIn fname msg ∧ SegIn (bowl_type_name t) msg ∧
        SegIn (bowl_value_type v) msg) := by
  constructor
  · by_cases hnil : isNil v = true
    · by_cases ht : t = BowlValueType.BowlListValue <;>
        simp [BOWL_ASSERT_TYPE, hnil, ht]
    · by_cases ht : typeOf v = t <;>
        simp [BOWL_ASSERT_TYPE, hnil, ht]
  · intro msg hmsg
    have hmsg' : msg = illegalTypeMessage (bowl_value_type v) fname
        (bowl_type_name t) := by
      unfold BOWL_ASSERT_TYPE at hmsg
      by_cases hcond : ((isNil v && t != BowlValueType.BowlListValue) ||
          (!isNil v && typeOf v != t)) = true
      · rw [if_pos hcond] at hmsg
        exact (Option.some_injective _ hmsg).symm
      · rw [if_neg hcond] at hmsg
        exact absurd hmsg (by simp)
    subst hmsg'
    refine ⟨⟨("argument of illegal type ".toList) ++
        (quoteChar :: (bowl_value_type v ++ [quoteChar])) ++
        (" in function ".toList) ++ [quoteChar],
        [quoteChar] ++ (" (expected type ".toList) ++
        (quoteChar :: (bowl_type_name t ++ [quoteChar])) ++ (")".toList), ?_⟩,
      ⟨("argument of illegal type ".toList) ++
        (quoteChar :: (bowl_value_type v ++ [quoteChar])) ++
        (" in function ".toList) ++
        (quoteChar :: (fname ++ [quoteChar])) ++
        (" (expected type ".toList) ++ [quoteChar],
        [quoteChar] ++ (")".toList), ?_⟩,
      ⟨("argument of illegal type ".toList) ++ [quoteChar],
        [quoteChar] ++ (" in function ".toList) ++
        (quoteChar :: (fname ++ [quoteChar])) ++
        (" (expected type ".toList) ++
        (quoteChar :: (bowl_type_name t ++ [quoteChar])) ++ (")".toList), ?_⟩⟩ <;>
      simp [illegalTypeMessage, List.append_assoc]

/-- Witness for C7: a boolean argument asserted to be a symbol fails the
check and the message contains the three names. -/
theorem claim_C7_witness :
    SegIn ("g".toList) (illegalTypeMessage (bowl_value_type (.boolean true))
      ("g".toList) (bowl_type_name BowlValueType.BowlSymbolValue)) ∧
    SegIn (bowl_type_name BowlValueType.BowlSymbolValue)
      (illegalTypeMessage (bowl_value_type (.boolean true)) ("g".toList)
        (bowl_type_name BowlValueType.BowlSymbolValue)) :=
  ⟨((claim_C7_assert_type ("g".toList) (.boolean true)
      BowlValueType.BowlSymbolValue).2 _ rfl).1,
    ((claim_C7_assert_type ("g".toList) (.boolean true)
      BowlValueType.BowlSymbolValue).2 _ rfl).2.1⟩

/-- C8 as stated is false: the inheriting-frame initializer takes the three
initial register values as arguments, so a frame constructed with a non-null
initial register does not have all registers null. -/
theorem claim_C8_counterexample :
    (BOWL_ALLOCATE_STACK_FRAME (some (0, cexPredFrame)) (Value.boolean true)
      Value.nil Value.nil).map BowlStackFrame.registers ≠
      some (Value.nil, Value.nil, Value.nil) := by
  intro hcon
  simp [BOWL_ALLOCATE_STACK_FRAME, cexPredFrame, BOWL_EMPTY_STACK_FRAME]
    at hcon

/-- C8 (amended): a frame constructed with the inheriting-frame initializer
`BOWL_ALLOCATE_STACK_FRAME(stack, a, b, c)` has its `previous` pointer equal
to `stack`, its registers equal to the three provided initial values (null
when nulls are passed), and its `dictionary`, `callstack` and `datastack`
pointers equal to those of the predecessor frame. -/
theorem claim_C8_frame_inherit (addr : Nat) (s : BowlStackFrame)
    (a b c : Value) :
    BOWL_ALLOCATE_STACK_FRAME (some (addr, s)) a b c =
      some { previous := some addr, registers := (a, b, c),
             dictionary := s.dictionary, callstack := s.callstack,
             datastack := s.datastack } := rfl

/-- C9: the cached hash entry point never returns 0; a non-zero cached hash
is returned as-is; on a zero cache the content hash is computed and stored
with a computed 0 re-keyed to 1; after the call the cache is non-zero and
equals the result, so a second call returns the same value. -/
theorem claim_C9_hash_cached (cache : Nat) (v : Value) :
    (bowl_value_hash_cached cache v).1 ≠ 0 ∧
    (bowl_value_hash_cached cache v).2 = (bowl_value_hash_cached cache v).1 ∧
    (cache ≠ 0 → (bowl_value_hash_cached cache v).1 = cache) ∧
    (cache = 0 → (bowl_value_hash_cached cache v).1 =
      (if bowl_value_hash v = 0 then 1 else bowl_value_hash v)) ∧
    bowl_value_hash_cached (bowl_value_hash_cached cache v).2 v =
      bowl_value_hash_cached cache v := by
  by_cases hc : cache = 0
  · subst hc
    by_cases hh : bowl_value_hash v = 0 <;>
      simp [bowl_value_hash_cached, hh]
  · simp [bowl_value_hash_cached, hc]

/-- Witness for C9: a non-zero cached hash is returned as-is. -/
theorem claim_C9_witness : (bowl_value_hash_cached 5 Value.nil).1 = 5 :=
  (claim_C9_hash_cached 5 Value.nil).2.2.1 (by decide)

/-- C10: the inheriting-frame initializer reads the `dictionary`,
`callstack` and `datastack` fields through the given predecessor pointer, so
passing `NULL` (despite its own documentation allowing it for the first
frame) has no defined result; with a non-null predecessor it is defined, and
only `BOWL_EMPTY_STACK_FRAME` is total in the predecessor argument, producing
a fully null frame even for a `NULL` predecessor. -/
theorem claim_C10_frame_requires_predecessor (a b c : Value) (addr : Nat)
    (s : BowlStackFrame) (prev : Option Nat) :
    BOWL_ALLOCATE_STACK_FRAME none a b c = none ∧
    (BOWL_ALLOCATE_STACK_FRAME (some (addr, s)) a b c).isSome = true ∧
    BOWL_EMPTY_STACK_FRAME prev =
      { previous := prev, registers := (Value.nil, Value.nil, Value.nil),
        dictionary := none, callstack := none, datastack := none } :=
  ⟨rfl, rfl, rfl⟩

end Bowl
